import Mathlib

/-!
# Verification of the Crumble mental-poker engine

A shallow embedding of the `crum_bls` and `crum_pkr` crates.

The BLS12-381 groups G1, G2 and the target group are cyclic of the same
prime order `r`; we model all three by their discrete logarithms, i.e. by
elements of the scalar field `F`.  Scalar multiplication `k · P` becomes
field multiplication, the pairing `e(P, Q)` becomes `dlog P * dlog Q`
(written additively in the exponent of the target group), a multi-Miller
loop followed by a final exponentiation is the sum of these products, and
the identity test in the target group is the test against `0`.  The
generator of G2 is the element with discrete logarithm `1`.

The betting ledger, the hand state machine and the deck bookkeeping are
translated operation by operation from `poker_bets.rs`, `poker_state.rs`,
`poker_deck.rs` and `poker_hand.rs`.  Rust `u64`/`usize` values become `ℕ`
(the unguarded `u64` subtraction in `poker_bets.rs` is the truncated `ℕ`
subtraction; the reachability invariant proved below shows it never
underflows).  Fallible functions returning `Result<_, Vec<u8>>` become
`Except String _` with the source's error strings.  `&mut self` methods
that can fail after a partial update return the pair of the `Except`
result and the updated value.
-/

set_option maxRecDepth 10000

namespace Crumble

instance exceptDecidableEq {ε α : Type} [DecidableEq ε] [DecidableEq α] :
    DecidableEq (Except ε α) := fun x y =>
  match x, y with
  | .ok a, .ok b =>
    if h : a = b then isTrue (by rw [h]) else isFalse (fun hc => by cases hc; exact h rfl)
  | .error a, .error b =>
    if h : a = b then isTrue (by rw [h]) else isFalse (fun hc => by cases hc; exact h rfl)
  | .ok _, .error _ => isFalse (fun hc => by cases hc)
  | .error _, .ok _ => isFalse (fun hc => by cases hc)

instance factPrimeFive : Fact (Nat.Prime 5) := ⟨by norm_num⟩

section Model

variable {F : Type} [Field F] [DecidableEq F]

/-- Discrete logarithm of the G2 generator (`G2Affine::generator()`). -/
def g2Gen (F : Type) [Field F] : F := 1

/-- `Bls12::multi_miller_loop(terms).final_exponentiation()`, in the exponent
of the target group: each pair `(P, Q)` of a G1 and a G2 point contributes
`dlog P * dlog Q`, and the loop accumulates the sum. -/
def millerSum (terms : List (F × F)) : F :=
  (terms.map fun t => t.1 * t.2).sum

/-- The `.is_identity()` test on the result of a batched pairing. -/
def pairingIsIdentity (terms : List (F × F)) : Bool :=
  decide (millerSum terms = 0)

/-- `crum_bls::sign::mask`: `mask(g1, k) = k · g1`. -/
def mask (g1 k : F) : F := g1 * k

/-- `Scalar::invert` returns `None` exactly on the zero scalar. -/
def scalarInvert (k : F) : Option F :=
  if k = 0 then none else some k⁻¹

/-- `crum_bls::verify::verify_unmasking`: accepts iff
`e(unmasked, pk) · e(masked, -G2gen) = 1`. -/
def verify_unmasking (masked unmasked pk : F) : Bool :=
  pairingIsIdentity [(unmasked, pk), (masked, -(g2Gen F))]

/-- `UnmaskedCards::unmask`: multiply every card by the inverse of `sk`.
The source `.expect`s a nonzero key; we return `none` there instead. -/
def unmaskCards (cards : List F) (sk : F) : Option (List F) :=
  (scalarInvert sk).map fun ski => cards.map fun c => mask c ski

/-- Repeated application of `unmaskCards`, one key per peel. -/
def unmaskSeq (cards : List F) (ks : List F) : Option (List F) :=
  ks.foldlM (fun cs k => unmaskCards cs k) cards

/-- `crum_bls::verify::ShuffleTrace`. -/
structure ShuffleTrace where
  after_index : ℕ
  claimed_before_index : ℕ
deriving DecidableEq

/-- The trace loop of `verify_shuffle_traced`: bounds check, bijection check
(`used_before_indices`), and accumulation of the two pairing operands per
trace into the batch. -/
def collectTraceTerms (mb ma : List F) (pk : F) :
    List ShuffleTrace → List ℕ → List (F × F) → Except String (List (F × F))
  | [], _, terms => .ok terms
  | t :: rest, used, terms =>
    if ma.length ≤ t.after_index ∨ mb.length ≤ t.claimed_before_index then
      .error "Trace index out of bounds"
    else if t.claimed_before_index ∈ used then
      .error "Duplicate input index! Cheater attempted to clone a card."
    else
      collectTraceTerms mb ma pk rest (t.claimed_before_index :: used)
        (terms ++ [(ma.getD t.after_index 0, -(g2Gen F)), (mb.getD t.claimed_before_index 0, pk)])

/-- `crum_bls::verify::verify_shuffle_traced`: run the trace loop, then one
batched Miller loop with a single final exponentiation. -/
def verify_shuffle_traced (mb ma : List F) (pk : F) (traces : List ShuffleTrace) :
    Except String Unit :=
  match collectTraceTerms mb ma pk traces [] [] with
  | .error e => .error e
  | .ok terms =>
    if pairingIsIdentity terms then .ok ()
    else .error "Cryptographic forgery: The batched trace verification failed."

end Model

/-! ## Betting ledger (`poker_bets.rs`) -/

/-- `PokerBettingState`. -/
structure PokerBettingState where
  player_chips : List ℕ
  current_round_bets : List (Option ℕ)
  pot : ℕ
  active_players : List Bool
  current_highest_bet : ℕ
deriving DecidableEq

namespace PokerBettingState

/-- `PokerBettingState::new`. -/
def new (num_players initial_chips : ℕ) : PokerBettingState where
  player_chips := List.replicate num_players initial_chips
  current_round_bets := List.replicate num_players none
  pot := 0
  active_players := List.replicate num_players true
  current_highest_bet := 0

/-- `PokerBettingState::call_amount_required`.  The `u64` subtraction is the
truncated `ℕ` subtraction. -/
def call_amount_required (s : PokerBettingState) (player : ℕ) : Except String ℕ :=
  if !(s.active_players.getD player false) then
    .error "Player has already folded"
  else
    .ok (s.current_highest_bet - (s.current_round_bets.getD player none).getD 0)

/-- `PokerBettingState::chips_remaining`. -/
def chips_remaining (s : PokerBettingState) (player : ℕ) : ℕ :=
  s.player_chips.getD player 0

/-- `PokerBettingState::process_action`. -/
def process_action (s : PokerBettingState) (player amount : ℕ) :
    Except String PokerBettingState :=
  if !(s.active_players.getD player false) then
    .error "Player has already folded"
  else
    let amount_needed_to_call :=
      s.current_highest_bet - (s.current_round_bets.getD player none).getD 0
    if amount = 0 then
      if 0 < amount_needed_to_call then
        .ok { s with active_players := s.active_players.set player false }
      else
        .ok { s with current_round_bets := s.current_round_bets.set player (some 0) }
    else
      if amount < amount_needed_to_call then
        .error "Amount is less than the required call amount"
      else if s.player_chips.getD player 0 < amount then
        .error "Not enough chips in stack"
      else
        let new_bet := amount + (s.current_round_bets.getD player none).getD 0
        .ok { s with
          player_chips := s.player_chips.set player (s.player_chips.getD player 0 - amount)
          current_round_bets := s.current_round_bets.set player (some new_bet)
          pot := s.pot + amount
          current_highest_bet :=
            if amount_needed_to_call < amount then new_bet else s.current_highest_bet }

/-- `PokerBettingState::is_betting_round_complete`. -/
def is_betting_round_complete (s : PokerBettingState) : Bool :=
  let active_count := s.active_players.countP (fun b => b)
  if active_count ≤ 1 then true
  else
    (List.range s.active_players.length).all fun player =>
      if s.active_players.getD player false then
        match s.current_round_bets.getD player none with
        | none => false
        | some player_bet => !(player_bet < s.current_highest_bet)
      else true

/-- `PokerBettingState::next_street`. -/
def next_street (s : PokerBettingState) : PokerBettingState :=
  { s with
    current_round_bets := List.replicate s.current_round_bets.length none
    current_highest_bet := 0 }

/-- States of the ledger reachable from `new num_players initial_chips` by
successful `process_action` calls and `next_street` resets (failing calls
return the state unchanged, so they need no constructor). -/
inductive Reach (num_players initial_chips : ℕ) : PokerBettingState → Prop
  | init : Reach num_players initial_chips (new num_players initial_chips)
  | action {s : PokerBettingState} (player amount : ℕ) {s' : PokerBettingState} :
      Reach num_players initial_chips s → process_action s player amount = .ok s' →
      Reach num_players initial_chips s'
  | street {s : PokerBettingState} :
      Reach num_players initial_chips s → Reach num_players initial_chips (next_street s)

/-- The inductive invariant of the ledger: fixed lengths, chip conservation,
and every recorded street bet bounded by the highest bet. -/
def Inv (num_players initial_chips : ℕ) (s : PokerBettingState) : Prop :=
  s.player_chips.length = num_players ∧
  s.current_round_bets.length = num_players ∧
  s.active_players.length = num_players ∧
  s.pot + s.player_chips.sum = num_players * initial_chips ∧
  ∀ p, (s.current_round_bets.getD p none).getD 0 ≤ s.current_highest_bet

end PokerBettingState

/-! ## Hand state machine (`poker_state.rs`) -/

def POKER_HAND_STATE_SHUFFLE : ℕ := 0
def POKER_HAND_STATE_SMALL_BLIND : ℕ := 1
def POKER_HAND_STATE_BIG_BLIND : ℕ := 2
def POKER_HAND_STATE_BET : ℕ := 3
def POKER_HAND_STATE_UNMASK_HOLE_CARDS : ℕ := 4
def POKER_HAND_STATE_UNMASK_COMMUNITY_CARDS : ℕ := 5
def POKER_HAND_STATE_UNMASK_SHOWDOWN : ℕ := 6
def POKER_HAND_STATE_SUBMIT_PUBLIC_KEY : ℕ := 7
def POKER_HAND_STATE_FINISHED : ℕ := 8
def POKER_HAND_STATE_CHEATED : ℕ := 9

def POKER_HOLDEM_PREFLOP : ℕ := 0

/-- `PokerHandState` (the cursor of the hand state machine). -/
structure PokerHandState where
  dealer_button : ℕ
  num_players : ℕ
  max_rounds : ℕ
  current_player : ℕ
  current_round : ℕ
  current_state : ℕ
deriving DecidableEq

namespace PokerHandState

/-- `PokerHandState::new`. -/
def new (num_players max_rounds dealer_button : ℕ) : PokerHandState where
  dealer_button := dealer_button
  num_players := num_players
  max_rounds := max_rounds
  current_player := dealer_button
  current_round := 0
  current_state := POKER_HAND_STATE_SHUFFLE

/-- `PokerHandState::next_dealer`. -/
def next_dealer (s : PokerHandState) : PokerHandState :=
  { s with current_player := s.dealer_button }

/-- `PokerHandState::next_player`; the Bool reports the wrap back to the
dealer button. -/
def next_player (s : PokerHandState) : PokerHandState × Bool :=
  let s' := { s with current_player := (s.current_player + 1) % s.num_players }
  (s', s'.current_player = s.dealer_button)

/-- The `loop` of `PokerHandState::next_player_masked`.  The source loop
steps `next_player` until it meets an unmasked player or returns to its
starting cursor; one full lap takes `num_players` steps, which bounds the
fuel. -/
def nextPlayerLoop (mask : List Bool) (start : ℕ) :
    ℕ → PokerHandState → PokerHandState × Bool
  | 0, s => (s, true)
  | fuel + 1, s =>
    let s' := (next_player s).1
    if mask.getD s'.current_player false then (s', false)
    else if start = s'.current_player then (s', true)
    else nextPlayerLoop mask start fuel s'

/-- `PokerHandState::next_player_masked`. -/
def next_player_masked (s : PokerHandState) (mask : List Bool) (from_dealer : Bool) :
    PokerHandState × Bool :=
  let s₀ := if from_dealer then s.next_dealer else s
  if from_dealer && mask.getD s₀.current_player false then (s₀, false)
  else nextPlayerLoop mask s₀.current_player s₀.num_players s₀

/-- `PokerHandState::next_round`; `Ok true` signals the last round. -/
def next_round (s : PokerHandState) : Except String (Bool × PokerHandState) :=
  let nr := s.current_round + 1
  if s.max_rounds < nr then .error "No next round - Hand has finished"
  else .ok (nr = s.max_rounds, { s with current_round := nr })

end PokerHandState

/-! ## Deck bookkeeping (`poker_deck.rs`) -/

/-- `MaskedCards::deal`: drain `count` cards from the front; the first
component is the dealt `UnmaskedCards`, the second the remaining deck. -/
def MaskedCards.deal {F : Type} (cards : List F) (count : ℕ) : List F × List F :=
  (cards.take count, cards.drop count)

/-- The loop of `PokerHand::submit_big_blind` dealing two hole cards to each
player in order; returns the dealt hands and the remaining deck. -/
def dealHoleCards {F : Type} (deck : List F) : List (List F) → List (List F) × List F
  | [] => ([], deck)
  | _ :: rest =>
    let d := MaskedCards.deal deck 2
    let r := dealHoleCards d.2 rest
    (d.1 :: r.1, r.2)

/-! ## The poker hand (`poker_hand.rs`)

`PokerDeck::new` hashes the 52 card strings to G1; the discrete logarithms
of those points are unknown, so the model takes the card points as a
parameter `deckCards` of `PokerHand.new` (the one place the constructor is
abstracted; everything else is translated directly). -/

section Hand

variable {F : Type} [Field F] [DecidableEq F]

/-- `PokerHand`.  `MaskedCards` / `UnmaskedCards` are their card vectors. -/
structure PokerHand (F : Type) where
  poker_deck : List F
  shuffled_deck : List F
  shuffle_history : List (List F)
  player_cards : List (List F)
  player_keys : List (Option F)
  community_cards : List (List F)
  unmasking_sequence : List (ℕ × ℕ × List (List F))
  current_state : PokerHandState
  betting_state : PokerBettingState
  small_blind : ℕ
deriving DecidableEq

namespace PokerHand

/-- `PokerHand::new` (with the hashed card points passed in). -/
def new (deckCards : List F) (num_players max_rounds dealer_button : ℕ)
    (initial_chips small_blind : ℕ) : PokerHand F where
  poker_deck := deckCards
  shuffled_deck := deckCards
  shuffle_history := []
  player_cards := List.replicate num_players []
  player_keys := List.replicate num_players none
  community_cards := List.replicate max_rounds []
  unmasking_sequence := []
  current_state := PokerHandState.new num_players max_rounds dealer_button
  betting_state := PokerBettingState.new num_players initial_chips
  small_blind := small_blind

/-- `PokerHand::get_small_blind`. -/
def get_small_blind (h : PokerHand F) : ℕ := h.small_blind

/-- `PokerHand::get_big_blind`. -/
def get_big_blind (h : PokerHand F) : ℕ := h.small_blind * 2

/-- `PokerHand::check_betting_round_complete`. -/
def check_betting_round_complete (h : PokerHand F) :
    Except String Unit × PokerHand F :=
  if h.betting_state.is_betting_round_complete then
    let st₁ := h.current_state.next_dealer
    let round := st₁.current_round
    match st₁.next_round with
    | .error e => (.error e, { h with current_state := st₁ })
    | .ok fs =>
      if fs.1 then
        (.ok (), { h with current_state :=
          { fs.2 with current_state := POKER_HAND_STATE_UNMASK_SHOWDOWN } })
      else
        let num_cards_deal := if round = POKER_HOLDEM_PREFLOP then 3 else 1
        let d := MaskedCards.deal h.shuffled_deck num_cards_deal
        (.ok (), { h with
          shuffled_deck := d.2
          community_cards := h.community_cards.set round d.1
          current_state :=
            { fs.2 with current_state := POKER_HAND_STATE_UNMASK_COMMUNITY_CARDS } })
  else (.ok (), h)

/-- `PokerHand::submit_shuffled_deck`. -/
def submit_shuffled_deck (h : PokerHand F) (player : ℕ) (deck : List F) :
    Except String Unit × PokerHand F :=
  if h.current_state.current_state ≠ POKER_HAND_STATE_SHUFFLE then
    (.error "Not in shuffle state", h)
  else if h.current_state.current_player ≠ player then
    (.error "Not your turn to shuffle", h)
  else
    let h₁ := { h with
      shuffle_history := h.shuffle_history ++ [deck]
      shuffled_deck := deck }
    let np := h₁.current_state.next_player
    if np.2 then
      (.ok (), { h₁ with current_state :=
        { np.1 with current_state := POKER_HAND_STATE_SMALL_BLIND } })
    else
      (.ok (), { h₁ with current_state := np.1 })

/-- `PokerHand::submit_small_blind`. -/
def submit_small_blind (h : PokerHand F) (player : ℕ) :
    Except String Unit × PokerHand F :=
  if h.current_state.current_state ≠ POKER_HAND_STATE_SMALL_BLIND then
    (.error "Not in small blind state", h)
  else if h.current_state.current_player ≠ player then
    (.error "Not your turn to post small blind", h)
  else
    match h.betting_state.process_action player h.get_small_blind with
    | .error e => (.error e, h)
    | .ok bs =>
      let np := h.current_state.next_player
      (.ok (), { h with
        betting_state := bs
        current_state := { np.1 with current_state := POKER_HAND_STATE_BIG_BLIND } })

/-- `PokerHand::submit_big_blind`. -/
def submit_big_blind (h : PokerHand F) (player : ℕ) :
    Except String Unit × PokerHand F :=
  if h.current_state.current_state ≠ POKER_HAND_STATE_BIG_BLIND then
    (.error "Not in big blind state", h)
  else if h.current_state.current_player ≠ player then
    (.error "Not your turn to post big blind", h)
  else
    match h.betting_state.process_action player h.get_big_blind with
    | .error e => (.error e, h)
    | .ok bs =>
      let d := dealHoleCards h.shuffled_deck h.player_cards
      (.ok (), { h with
        betting_state := bs
        player_cards := d.1
        shuffled_deck := d.2
        current_state := { h.current_state.next_dealer with
          current_state := POKER_HAND_STATE_UNMASK_HOLE_CARDS } })

/-- `PokerHand::submit_player_cards`. -/
def submit_player_cards (h : PokerHand F) (player : ℕ)
    (player_cards : List (List F)) : Except String Unit × PokerHand F :=
  if h.current_state.current_state ≠ POKER_HAND_STATE_UNMASK_HOLE_CARDS then
    (.error "Not in unmask hole cards state", h)
  else if h.current_state.current_player ≠ player then
    (.error "Not your turn to unmask hole cards", h)
  else if player_cards.length ≠ h.player_cards.length then
    (.error "Incorrect length of player cards", h)
  else
    let h₁ := { h with
      unmasking_sequence := h.unmasking_sequence ++
        [(player, POKER_HAND_STATE_UNMASK_HOLE_CARDS, player_cards)]
      player_cards := player_cards }
    let np := h₁.current_state.next_player
    if np.2 then
      let npm := np.1.next_player_masked h₁.betting_state.active_players true
      check_betting_round_complete { h₁ with
        betting_state := h₁.betting_state.next_street
        current_state := { npm.1 with current_state := POKER_HAND_STATE_BET } }
    else
      (.ok (), { h₁ with current_state := np.1 })

/-- `PokerHand::submit_player_cards_showdown`. -/
def submit_player_cards_showdown (h : PokerHand F) (player : ℕ)
    (player_cards : List (List F)) : Except String Unit × PokerHand F :=
  if h.current_state.current_state ≠ POKER_HAND_STATE_UNMASK_SHOWDOWN then
    (.error "Not in unmask hole cards state", h)
  else if h.current_state.current_player ≠ player then
    (.error "Not your turn to unmask hole cards", h)
  else if player_cards.length ≠ h.player_cards.length then
    (.error "Incorrect length of player cards", h)
  else
    let h₁ := { h with
      unmasking_sequence := h.unmasking_sequence ++
        [(player, POKER_HAND_STATE_UNMASK_SHOWDOWN, player_cards)]
      player_cards := player_cards }
    let np := h₁.current_state.next_player
    if np.2 then
      (.ok (), { h₁ with current_state :=
        { np.1 with current_state := POKER_HAND_STATE_SUBMIT_PUBLIC_KEY } })
    else
      (.ok (), { h₁ with current_state := np.1 })

/-- `PokerHand::submit_community_cards`. -/
def submit_community_cards (h : PokerHand F) (player round : ℕ) (cards : List F) :
    Except String Unit × PokerHand F :=
  if h.current_state.current_state ≠ POKER_HAND_STATE_UNMASK_COMMUNITY_CARDS then
    (.error "Not in bet state", h)
  else if h.current_state.current_round ≠ round then
    (.error "Not this round to unmask cards", h)
  else if h.current_state.current_player ≠ player then
    (.error "Not your turn to bet", h)
  else
    let h₁ := { h with
      unmasking_sequence := h.unmasking_sequence ++
        [(player, POKER_HAND_STATE_UNMASK_COMMUNITY_CARDS, [cards])]
      community_cards := h.community_cards.set (round - 1) cards }
    let np := h₁.current_state.next_player
    if np.2 then
      let npm := np.1.next_player_masked h₁.betting_state.active_players true
      check_betting_round_complete { h₁ with
        betting_state := h₁.betting_state.next_street
        current_state := { npm.1 with current_state := POKER_HAND_STATE_BET } }
    else
      (.ok (), { h₁ with current_state := np.1 })

/-- `PokerHand::submit_bet`. -/
def submit_bet (h : PokerHand F) (player amount : ℕ) :
    Except String Unit × PokerHand F :=
  if h.current_state.current_state ≠ POKER_HAND_STATE_BET then
    (.error "Not in bet state", h)
  else if h.current_state.current_player ≠ player then
    (.error "Not your turn to bet", h)
  else
    match h.betting_state.process_action player amount with
    | .error e => (.error e, h)
    | .ok bs =>
      let npm := h.current_state.next_player_masked bs.active_players false
      check_betting_round_complete { h with betting_state := bs, current_state := npm.1 }

/-- `PokerHand::verify_shuffle`. -/
def verify_shuffle (h : PokerHand F) (player : ℕ) (pk : F)
    (traces : List ShuffleTrace) : Bool :=
  let n := h.current_state.num_players
  let dealer := h.current_state.dealer_button
  let step_index := (player + n - dealer) % n
  let next_cards := h.shuffle_history.getD step_index []
  let prev_cards :=
    if step_index = 0 then h.poker_deck else h.shuffle_history.getD (step_index - 1) []
  (verify_shuffle_traced prev_cards next_cards pk traces).isOk

end PokerHand

/-! ### Replay of the unmasking log (`PokerHand::verify_unmasking`)

The replay walks the recorded `unmasking_sequence` over trackers seeded from
the final shuffled deck: two hole cards per player `p` at offset `2p`, then
flop (3), turn (1) and river (1). -/

/-- The mutable trackers of the replay. -/
structure ReplaySt (F : Type) where
  hole : List (List F)
  comm : List (List F)
  commIdx : ℕ
  commCnt : ℕ
deriving DecidableEq

/-- Initial trackers: the deterministic partition of the final shuffled
deck into hole pairs and the flop/turn/river slices. -/
def initReplaySt (n : ℕ) (finalDeck : List F) : ReplaySt F where
  hole := (List.range n).map fun p => (finalDeck.drop (2 * p)).take 2
  comm := [(finalDeck.drop (2 * n)).take 3,
           (finalDeck.drop (2 * n + 3)).take 1,
           (finalDeck.drop (2 * n + 4)).take 1]
  commIdx := 0
  commCnt := 0

/-- Community-round bookkeeping: record the peeled cards and advance the
round after `n` players have peeled it. -/
def commAdvance (n : ℕ) (rs : ReplaySt F) (after : List F) : ReplaySt F :=
  let comm' := rs.comm.set rs.commIdx after
  if rs.commCnt + 1 = n then ⟨rs.hole, comm', rs.commIdx + 1, 0⟩
  else ⟨rs.hole, comm', rs.commIdx, rs.commCnt + 1⟩

/-- Check one peel: every point of `before` zipped with `after` must satisfy
the atomic peel audit `verify_unmasking`. -/
def checkCards (pk : F) (before after : List F) : Bool :=
  (before.zip after).all fun p => verify_unmasking p.1 p.2 pk

/-- The `UnmaskHoleCards` inner loop of the checker: actor `ap` peels every
target player's hole pair except its own; `none` marks a failed check. -/
def checkTargets (pk : F) (ap : ℕ) (cards : List (List F)) :
    List ℕ → List (List F) → Option (List (List F))
  | [], tr => some tr
  | t :: ts, tr =>
    if t = ap then checkTargets pk ap cards ts tr
    else if checkCards pk (tr.getD t []) (cards.getD t []) then
      checkTargets pk ap cards ts (tr.set t (cards.getD t []))
    else none

/-- The replay loop of `PokerHand::verify_unmasking` (the compiled,
check-as-you-go version in `poker_hand.rs`): `.ok (some p)` reports the
acting player of the first failing peel. -/
def replayCheck (keys : List (Option F)) (n : ℕ) :
    List (ℕ × ℕ × List (List F)) → ReplaySt F → Except String (Option ℕ)
  | [], _ => .ok none
  | e :: rest, rs =>
    match keys.getD e.1 none with
    | none => .error "Missing PK for unmask audit"
    | some pk =>
      if e.2.1 = POKER_HAND_STATE_UNMASK_HOLE_CARDS then
        match checkTargets pk e.1 e.2.2 (List.range n) rs.hole with
        | none => .ok (some e.1)
        | some hole' => replayCheck keys n rest { rs with hole := hole' }
      else if e.2.1 = POKER_HAND_STATE_UNMASK_COMMUNITY_CARDS then
        let after := e.2.2.getD 0 []
        if checkCards pk (rs.comm.getD rs.commIdx []) after then
          replayCheck keys n rest (commAdvance n rs after)
        else .ok (some e.1)
      else if e.2.1 = POKER_HAND_STATE_UNMASK_SHOWDOWN then
        let after := e.2.2.getD e.1 []
        if checkCards pk (rs.hole.getD e.1 []) after then
          replayCheck keys n rest { rs with hole := rs.hole.set e.1 after }
        else .ok (some e.1)
      else replayCheck keys n rest rs

namespace PokerHand

/-- `PokerHand::verify_unmasking` (compiled version, `poker_hand.rs`): the
pair is the `Result` and the possibly-Cheated hand. -/
def verify_unmasking (h : PokerHand F) : Except String (Option ℕ) × PokerHand F :=
  match h.shuffle_history.getLast? with
  | none => (.error "No shuffle history", h)
  | some finalDeck =>
    let n := h.current_state.num_players
    match replayCheck h.player_keys n h.unmasking_sequence (initReplaySt n finalDeck) with
    | .ok (some c) =>
      (.ok (some c), { h with current_state :=
        { h.current_state with current_state := POKER_HAND_STATE_CHEATED } })
    | r => (r, h)

/-- `PokerHand::submit_public_key`. -/
def submit_public_key (h : PokerHand F) (player : ℕ) (pk : F)
    (traces : List ShuffleTrace) : Except String Unit × PokerHand F :=
  if h.current_state.current_state ≠ POKER_HAND_STATE_SUBMIT_PUBLIC_KEY then
    (.error "Not in submit public key state", h)
  else if h.current_state.current_player ≠ player then
    (.error "Not your turn to submit public key", h)
  else
    let h₁ := { h with player_keys := h.player_keys.set player (some pk) }
    if !(h₁.verify_shuffle player pk traces) then
      (.error "Player cheated during shuffle", { h₁ with current_state :=
        { h₁.current_state with current_state := POKER_HAND_STATE_CHEATED } })
    else
      let np := h₁.current_state.next_player
      let h₂ := { h₁ with current_state := np.1 }
      if np.2 then
        match h₂.verify_unmasking with
        | (.ok none, h₃) =>
          (.ok (), { h₃ with current_state :=
            { h₃.current_state with current_state := POKER_HAND_STATE_FINISHED } })
        | (.ok (some c), h₃) =>
          (.error ("Player cheated during unmasking " ++ toString c),
           { h₃ with current_state :=
             { h₃.current_state with current_state := POKER_HAND_STATE_CHEATED } })
        | (.error e, h₃) => (.error e, h₃)
      else (.ok (), h₂)

end PokerHand

/-! ### The audit trail (spec side, modelled on the batched collector in
`poker_hand_verify.rs`): the same replay, but collecting every peel as a
`(unmasked, masked, actor)` triple instead of checking it on the spot. -/

/-- One peel of one card: `after` point, `before` point, acting player. -/
structure PeelTriple (F : Type) where
  unmasked : F
  masked : F
  actor : ℕ
deriving DecidableEq

/-- The triples one peel of a card block contributes. -/
def peelList (ap : ℕ) (before after : List F) : List (PeelTriple F) :=
  (before.zip after).map fun p => ⟨p.2, p.1, ap⟩

/-- Collector analogue of `checkTargets`. -/
def collectTargets (ap : ℕ) (cards : List (List F)) :
    List ℕ → List (List F) → List (PeelTriple F) × List (List F)
  | [], tr => ([], tr)
  | t :: ts, tr =>
    if t = ap then collectTargets ap cards ts tr
    else
      let after := cards.getD t []
      let r := collectTargets ap cards ts (tr.set t after)
      (peelList ap (tr.getD t []) after ++ r.1, r.2)

/-- Collector analogue of `replayCheck`: the full audit trail of the log. -/
def collectReplay (n : ℕ) :
    List (ℕ × ℕ × List (List F)) → ReplaySt F → List (PeelTriple F) × ReplaySt F
  | [], rs => ([], rs)
  | e :: rest, rs =>
    if e.2.1 = POKER_HAND_STATE_UNMASK_HOLE_CARDS then
      let r := collectTargets e.1 e.2.2 (List.range n) rs.hole
      let r' := collectReplay n rest { rs with hole := r.2 }
      (r.1 ++ r'.1, r'.2)
    else if e.2.1 = POKER_HAND_STATE_UNMASK_COMMUNITY_CARDS then
      let after := e.2.2.getD 0 []
      let r' := collectReplay n rest (commAdvance n rs after)
      (peelList e.1 (rs.comm.getD rs.commIdx []) after ++ r'.1, r'.2)
    else if e.2.1 = POKER_HAND_STATE_UNMASK_SHOWDOWN then
      let after := e.2.2.getD e.1 []
      let r' := collectReplay n rest { rs with hole := rs.hole.set e.1 after }
      (peelList e.1 (rs.hole.getD e.1 []) after ++ r'.1, r'.2)
    else collectReplay n rest rs

/-- The audit trail of a hand: every peel of the unmasking log, replayed
against the partitioned final shuffled deck. -/
def auditTrail (h : PokerHand F) : List (PeelTriple F) :=
  match h.shuffle_history.getLast? with
  | none => []
  | some finalDeck =>
    let n := h.current_state.num_players
    (collectReplay n h.unmasking_sequence (initReplaySt n finalDeck)).1

/-- Whether one collected peel passes the atomic audit under the submitted
keys. -/
def tripleOk (keys : List (Option F)) (t : PeelTriple F) : Bool :=
  match keys.getD t.actor none with
  | none => false
  | some pk => verify_unmasking t.masked t.unmasked pk

/-- The acting player of the first peel of a trail that fails the audit. -/
def firstCheat (keys : List (Option F)) (l : List (PeelTriple F)) : Option ℕ :=
  (l.find? fun t => !(tripleOk keys t)).map (fun t => t.actor)

end Hand

/-! ## Concrete example data (used by witnesses and counterexamples) -/

/-- A small prime field standing in for the BLS12-381 scalar field in
concrete evaluations. -/
abbrev FF : Type := ZMod 5

def exDeck : List FF := List.replicate 52 0

/-- A fresh two-player hand: dealer button 0, 100 chips, small blind 10. -/
def exHand0 : PokerHand FF := PokerHand.new exDeck 2 4 0 100 10

def exHandA : PokerHand FF := (PokerHand.submit_shuffled_deck exHand0 0 exDeck).2

def exHandB : PokerHand FF := (PokerHand.submit_shuffled_deck exHandA 1 exDeck).2

def exHandC : PokerHand FF := (PokerHand.submit_small_blind exHandB 0).2

def exHandD : PokerHand FF := (PokerHand.submit_big_blind exHandC 1).2

def exHandE : PokerHand FF := (PokerHand.submit_player_cards exHandD 0 [[], []]).2

/-! ## Helper lemmas on lists -/

theorem getD_set_self {α : Type} (l : List α) (p : ℕ) (v d : α) (hp : p < l.length) :
    (l.set p v).getD p d = v := by
  induction l generalizing p with
  | nil => simp at hp
  | cons a t ih =>
    cases p with
    | zero => simp [List.set]
    | succ q => simpa [List.set] using ih q (by simpa using hp)

theorem getD_set_ne {α : Type} (l : List α) (p q : ℕ) (v d : α) (hne : q ≠ p) :
    (l.set p v).getD q d = l.getD q d := by
  induction l generalizing p q with
  | nil => simp [List.set]
  | cons a t ih =>
    cases p with
    | zero =>
      cases q with
      | zero => exact absurd rfl hne
      | succ j => simp [List.set]
    | succ i =>
      cases q with
      | zero => simp [List.set]
      | succ j => simpa [List.set] using ih i j (by omega)

theorem getD_true_lt_length {l : List Bool} {p : ℕ} (h : l.getD p false = true) :
    p < l.length := by
  by_contra hc
  rw [List.getD_eq_default _ _ (by omega)] at h
  exact Bool.false_ne_true h

theorem sum_set_add (l : List ℕ) (p v : ℕ) (hp : p < l.length) :
    (l.set p v).sum + l.getD p 0 = l.sum + v := by
  induction l generalizing p with
  | nil => simp at hp
  | cons a t ih =>
    cases p with
    | zero => simp [List.set]; omega
    | succ q =>
      simp only [List.set, List.sum_cons, List.getD_cons_succ]
      have := ih q (by simpa using hp)
      omega

theorem getD_replicate_self {α : Type} (n q : ℕ) (a : α) :
    (List.replicate n a).getD q a = a := by
  induction n generalizing q with
  | zero => simp
  | succ m ih => cases q <;> simp [List.replicate_succ, ih]

theorem sum_replicate_nat (n c : ℕ) : (List.replicate n c).sum = n * c := by
  induction n with
  | zero => simp
  | succ m ih => simp [List.replicate_succ, ih]; ring

/-! ## The betting-ledger invariant -/

namespace PokerBettingState

theorem inv_new (n c : ℕ) : Inv n c (new n c) := by
  refine ⟨by simp [new], by simp [new], by simp [new], ?_, ?_⟩
  · simp [new, sum_replicate_nat]
  · intro p
    simp [new, getD_replicate_self]

theorem inv_next_street {n c : ℕ} {s : PokerBettingState} (h : Inv n c s) :
    Inv n c s.next_street := by
  obtain ⟨h1, h2, h3, h4, h5⟩ := h
  refine ⟨h1, by simpa [next_street], h3, h4, ?_⟩
  intro p
  simp [next_street, getD_replicate_self]

theorem inv_process_action {n c : ℕ} {s s' : PokerBettingState} {p a : ℕ}
    (hs : Inv n c s) (h : s.process_action p a = .ok s') : Inv n c s' := by
  obtain ⟨h1, h2, h3, h4, h5⟩ := hs
  simp only [process_action] at h
  split_ifs at h with hact h0 howed hlt hchips
  · -- fold
    injection h with h'
    subst h'
    exact ⟨h1, h2, by simpa using h3, h4, h5⟩
  · -- check
    injection h with h'
    subst h'
    have hp : p < s.current_round_bets.length := by
      have := getD_true_lt_length (show s.active_players.getD p false = true by
        simpa using hact)
      omega
    refine ⟨h1, by simpa using h2, h3, h4, ?_⟩
    intro q
    show ((s.current_round_bets.set p (some 0)).getD q none).getD 0 ≤ s.current_highest_bet
    rcases eq_or_ne q p with rfl | hne
    · rw [getD_set_self _ _ _ _ hp]; simp
    · rw [getD_set_ne _ _ _ _ _ hne]; exact h5 q
  · -- raise (the bet exceeds the owed call, so the highest bet moves up)
    injection h with h'
    subst h'
    have hpb : p < s.active_players.length :=
      getD_true_lt_length (show s.active_players.getD p false = true by simpa using hact)
    have hpc : p < s.player_chips.length := by omega
    have hpr : p < s.current_round_bets.length := by omega
    have hsum := sum_set_add s.player_chips p (s.player_chips.getD p 0 - a) hpc
    have hnlt : ¬ s.player_chips.getD p 0 < a := hchips
    refine ⟨by simpa using h1, by simpa using h2, h3, ?_, ?_⟩
    · show s.pot + a +
        (s.player_chips.set p (s.player_chips.getD p 0 - a)).sum = n * c
      omega
    · intro q
      have h5p := h5 p
      show ((s.current_round_bets.set p
          (some (a + (s.current_round_bets.getD p none).getD 0))).getD q none).getD 0 ≤
        a + (s.current_round_bets.getD p none).getD 0
      rcases eq_or_ne q p with rfl | hne
      · rw [getD_set_self _ _ _ _ hpr]
        simp only [Option.getD_some]
        omega
      · rw [getD_set_ne _ _ _ _ _ hne]
        have h5q := h5 q
        omega
  · -- exact call (the highest bet is unchanged)
    injection h with h'
    subst h'
    have hpb : p < s.active_players.length :=
      getD_true_lt_length (show s.active_players.getD p false = true by simpa using hact)
    have hpc : p < s.player_chips.length := by omega
    have hpr : p < s.current_round_bets.length := by omega
    have hsum := sum_set_add s.player_chips p (s.player_chips.getD p 0 - a) hpc
    have hnlt : ¬ s.player_chips.getD p 0 < a := hchips
    refine ⟨by simpa using h1, by simpa using h2, h3, ?_, ?_⟩
    · show s.pot + a +
        (s.player_chips.set p (s.player_chips.getD p 0 - a)).sum = n * c
      omega
    · intro q
      have h5p := h5 p
      show ((s.current_round_bets.set p
          (some (a + (s.current_round_bets.getD p none).getD 0))).getD q none).getD 0 ≤
        s.current_highest_bet
      rcases eq_or_ne q p with rfl | hne
      · rw [getD_set_self _ _ _ _ hpr]
        simp only [Option.getD_some]
        omega
      · rw [getD_set_ne _ _ _ _ _ hne]
        have h5q := h5 q
        omega

theorem reach_inv {n c : ℕ} {s : PokerBettingState} (h : Reach n c s) : Inv n c s := by
  induction h with
  | init => exact inv_new n c
  | action player amount hr hok ih => exact inv_process_action ih hok
  | street hr ih => exact inv_next_street ih

end PokerBettingState

/-! ## Claims about the betting ledger -/

/-- Claim C3: `process_action p amount` on a betting state behaves by cases
on `owed = highest_bet − current_round_bet[p]` (saturating at 0): an
inactive player always gets `AlreadyFolded`; `amount = 0` folds when
`owed > 0` and checks (recording a street bet of 0) when `owed = 0`;
`amount > 0` fails with `UnderCall` when `amount < owed`, fails with
`InsufficientChips` when `amount > chips[p]`, and otherwise moves `amount`
from the stack to the pot, adds it to the recorded street bet, and raises
`highest_bet` to the new total exactly when that total exceeds it. -/
theorem C3_process_action_cases (s : PokerBettingState) (p amount : ℕ) :
    (s.active_players.getD p false = false →
      s.process_action p amount = .error "Player has already folded")
    ∧ (s.active_players.getD p false = true → amount = 0 →
        0 < s.current_highest_bet - (s.current_round_bets.getD p none).getD 0 →
      s.process_action p amount =
        .ok { s with active_players := s.active_players.set p false })
    ∧ (s.active_players.getD p false = true → amount = 0 →
        s.current_highest_bet - (s.current_round_bets.getD p none).getD 0 = 0 →
      s.process_action p amount =
        .ok { s with current_round_bets := s.current_round_bets.set p (some 0) })
    ∧ (s.active_players.getD p false = true → 0 < amount →
        amount < s.current_highest_bet - (s.current_round_bets.getD p none).getD 0 →
      s.process_action p amount = .error "Amount is less than the required call amount")
    ∧ (s.active_players.getD p false = true → 0 < amount →
        s.current_highest_bet - (s.current_round_bets.getD p none).getD 0 ≤ amount →
        s.player_chips.getD p 0 < amount →
      s.process_action p amount = .error "Not enough chips in stack")
    ∧ (s.active_players.getD p false = true → 0 < amount →
        s.current_highest_bet - (s.current_round_bets.getD p none).getD 0 ≤ amount →
        amount ≤ s.player_chips.getD p 0 →
      s.process_action p amount = .ok { s with
        player_chips := s.player_chips.set p (s.player_chips.getD p 0 - amount)
        current_round_bets := s.current_round_bets.set p
          (some (amount + (s.current_round_bets.getD p none).getD 0))
        pot := s.pot + amount
        current_highest_bet :=
          if s.current_highest_bet < amount + (s.current_round_bets.getD p none).getD 0
          then amount + (s.current_round_bets.getD p none).getD 0
          else s.current_highest_bet }) := by
  refine ⟨?_, ?_, ?_, ?_, ?_, ?_⟩
  · intro hact
    simp only [PokerBettingState.process_action]
    rw [if_pos (show (!s.active_players.getD p false) = true by rw [hact]; rfl)]
  · intro hact h0 howed
    subst h0
    simp only [PokerBettingState.process_action]
    rw [if_neg (show ¬ (!s.active_players.getD p false) = true by rw [hact]; decide),
      if_pos trivial, if_pos howed]
  · intro hact h0 howed
    subst h0
    simp only [PokerBettingState.process_action]
    rw [if_neg (show ¬ (!s.active_players.getD p false) = true by rw [hact]; decide),
      if_pos trivial, if_neg (by omega)]
  · intro hact h0 hlt
    simp only [PokerBettingState.process_action]
    rw [if_neg (show ¬ (!s.active_players.getD p false) = true by rw [hact]; decide),
      if_neg (by omega), if_pos hlt]
  · intro hact h0 howed hchips
    simp only [PokerBettingState.process_action]
    rw [if_neg (show ¬ (!s.active_players.getD p false) = true by rw [hact]; decide),
      if_neg (by omega), if_neg (by omega), if_pos hchips]
  · intro hact h0 howed hchips
    have hcond : (s.current_highest_bet - (s.current_round_bets.getD p none).getD 0 < amount)
        = (s.current_highest_bet < amount + (s.current_round_bets.getD p none).getD 0) := by
      apply propext
      constructor <;> intro <;> omega
    simp only [PokerBettingState.process_action]
    rw [if_neg (show ¬ (!s.active_players.getD p false) = true by rw [hact]; decide),
      if_neg (by omega), if_neg (by omega), if_neg (by omega)]
    simp only [hcond]

/-- Claim C3 witness: a concrete check (amount 0, nothing owed) records a
zero street bet. -/
theorem C3_process_action_cases_witness :
    PokerBettingState.process_action (PokerBettingState.new 2 100) 0 0 =
      .ok { PokerBettingState.new 2 100 with
            current_round_bets :=
              (PokerBettingState.new 2 100).current_round_bets.set 0 (some 0) } :=
  (C3_process_action_cases (PokerBettingState.new 2 100) 0 0).2.2.1 (by decide) rfl (by decide)

/-- Claim C4: every betting state reachable from `new n c` by any
interleaving of `process_action` calls and `next_street` resets conserves
chips: `pot + Σ chips = n * c`. -/
theorem C4_chip_conservation {n c : ℕ} {s : PokerBettingState}
    (hr : PokerBettingState.Reach n c s) :
    s.pot + s.player_chips.sum = n * c :=
  (PokerBettingState.reach_inv hr).2.2.2.1

/-- Claim C4 witness: the conservation identity at the initial state. -/
theorem C4_chip_conservation_witness :
    (PokerBettingState.new 2 100).pot + (PokerBettingState.new 2 100).player_chips.sum
      = 2 * 100 :=
  C4_chip_conservation PokerBettingState.Reach.init

/-- Claim C5: on every reachable betting state, `is_betting_round_complete`
returns true iff at most one player is active, or every active player has a
recorded (non-unset) street bet equal to the current highest bet; an active
player with an unset street bet makes it return false. -/
theorem C5_round_complete_iff {n c : ℕ} {s : PokerBettingState}
    (hr : PokerBettingState.Reach n c s) :
    s.is_betting_round_complete = true ↔
      (s.active_players.countP (fun b => b) ≤ 1 ∨
        ∀ p, p < s.active_players.length →
          s.active_players.getD p false = true →
          s.current_round_bets.getD p none = some s.current_highest_bet) := by
  have h5 := (PokerBettingState.reach_inv hr).2.2.2.2
  unfold PokerBettingState.is_betting_round_complete
  by_cases hcnt : s.active_players.countP (fun b => b) ≤ 1
  · simp [hcnt]
  · rw [if_neg hcnt]
    simp only [List.all_eq_true, List.mem_range]
    constructor
    · intro hall
      right
      intro p hp hact
      have hthis := hall p hp
      rw [if_pos hact] at hthis
      rcases hb : s.current_round_bets.getD p none with _ | b
      · rw [hb] at hthis; simp at hthis
      · rw [hb] at hthis
        have hle := h5 p
        rw [hb] at hle
        simp only [Option.getD_some] at hle
        have hnb : ¬ b < s.current_highest_bet := by simpa using hthis
        have hbe : b = s.current_highest_bet := by omega
        rw [hbe]
    · rintro (hc | hall) p hp
      · exact absurd hc hcnt
      · by_cases hact : s.active_players.getD p false = true
        · rw [if_pos hact, hall p hp hact]
          simp
        · rw [if_neg hact]

/-- Claim C5 witness: with a single player the round is complete, in
accordance with the "at most one active player" disjunct. -/
theorem C5_round_complete_iff_witness :
    (PokerBettingState.new 1 100).is_betting_round_complete = true :=
  (C5_round_complete_iff PokerBettingState.Reach.init).mpr (Or.inl (by decide))

/-- Claim C10: every reachable betting state keeps every recorded street bet
(unset treated as 0) at or below `current_highest_bet`, so the unguarded
`u64` subtraction `current_highest_bet - current_round_bets[p]` in
`call_amount_required` and `process_action` never underflows: the integer
difference coincides with the truncated natural subtraction. -/
theorem C10_subtraction_never_underflows {n c : ℕ} {s : PokerBettingState}
    (hr : PokerBettingState.Reach n c s) (p : ℕ) :
    (s.current_round_bets.getD p none).getD 0 ≤ s.current_highest_bet ∧
    ((s.current_highest_bet : ℤ) - ((s.current_round_bets.getD p none).getD 0 : ℤ) =
      ((s.current_highest_bet - (s.current_round_bets.getD p none).getD 0 : ℕ) : ℤ)) := by
  have h5 := (PokerBettingState.reach_inv hr).2.2.2.2 p
  exact ⟨h5, by omega⟩

/-- Claim C10 witness: the bound at the initial two-player state. -/
theorem C10_subtraction_never_underflows_witness :
    ((PokerBettingState.new 2 100).current_round_bets.getD 0 none).getD 0 ≤
      (PokerBettingState.new 2 100).current_highest_bet :=
  (C10_subtraction_never_underflows PokerBettingState.Reach.init 0).1

/-! ## Claims about the hand submission API -/

section HandClaims

variable {F : Type} [Field F] [DecidableEq F]

/-- Claim C7 counterexample: on a fresh hand (phase `Shuffle`), a
`submit_bet` by a non-current player is rejected with the wrong-phase
error, not the wrong-turn error, refuting the claim that *every* wrong-actor
submission returns `WrongTurn`. -/
theorem C7_wrong_turn_counterexample :
    1 ≠ exHand0.current_state.current_player ∧
    (exHand0.submit_bet 1 5).1 = .error "Not in bet state" ∧
    (exHand0.submit_bet 1 5).1 ≠ .error "Not your turn to bet" := by
  refine ⟨by decide, by decide, by decide⟩

/-- Claim C7 (amended): a submission whose actor differs from
`current_player` always returns an error and leaves the hand unchanged; the
error is the method's wrong-turn error exactly when the hand is in the
phase the method expects (with the matching round for
`submit_community_cards`), and the wrong-phase (or wrong-round) error
otherwise. -/
theorem C7_wrong_turn_rejects_unchanged (h : PokerHand F) (player round amount : ℕ)
    (deck : List F) (ccards : List F) (cardsList : List (List F)) (pk : F)
    (traces : List ShuffleTrace)
    (hne : player ≠ h.current_state.current_player) :
    ((h.submit_shuffled_deck player deck).2 = h ∧
      (h.current_state.current_state = POKER_HAND_STATE_SHUFFLE →
        (h.submit_shuffled_deck player deck).1 = .error "Not your turn to shuffle") ∧
      (h.current_state.current_state ≠ POKER_HAND_STATE_SHUFFLE →
        (h.submit_shuffled_deck player deck).1 = .error "Not in shuffle state"))
    ∧ ((h.submit_small_blind player).2 = h ∧
      (h.current_state.current_state = POKER_HAND_STATE_SMALL_BLIND →
        (h.submit_small_blind player).1 = .error "Not your turn to post small blind") ∧
      (h.current_state.current_state ≠ POKER_HAND_STATE_SMALL_BLIND →
        (h.submit_small_blind player).1 = .error "Not in small blind state"))
    ∧ ((h.submit_big_blind player).2 = h ∧
      (h.current_state.current_state = POKER_HAND_STATE_BIG_BLIND →
        (h.submit_big_blind player).1 = .error "Not your turn to post big blind") ∧
      (h.current_state.current_state ≠ POKER_HAND_STATE_BIG_BLIND →
        (h.submit_big_blind player).1 = .error "Not in big blind state"))
    ∧ ((h.submit_player_cards player cardsList).2 = h ∧
      (h.current_state.current_state = POKER_HAND_STATE_UNMASK_HOLE_CARDS →
        (h.submit_player_cards player cardsList).1 =
          .error "Not your turn to unmask hole cards") ∧
      (h.current_state.current_state ≠ POKER_HAND_STATE_UNMASK_HOLE_CARDS →
        (h.submit_player_cards player cardsList).1 =
          .error "Not in unmask hole cards state"))
    ∧ ((h.submit_player_cards_showdown player cardsList).2 = h ∧
      (h.current_state.current_state = POKER_HAND_STATE_UNMASK_SHOWDOWN →
        (h.submit_player_cards_showdown player cardsList).1 =
          .error "Not your turn to unmask hole cards") ∧
      (h.current_state.current_state ≠ POKER_HAND_STATE_UNMASK_SHOWDOWN →
        (h.submit_player_cards_showdown player cardsList).1 =
          .error "Not in unmask hole cards state"))
    ∧ ((h.submit_community_cards player round ccards).2 = h ∧
      (h.current_state.current_state = POKER_HAND_STATE_UNMASK_COMMUNITY_CARDS →
        h.current_state.current_round = round →
        (h.submit_community_cards player round ccards).1 =
          .error "Not your turn to bet") ∧
      (h.current_state.current_state = POKER_HAND_STATE_UNMASK_COMMUNITY_CARDS →
        h.current_state.current_round ≠ round →
        (h.submit_community_cards player round ccards).1 =
          .error "Not this round to unmask cards") ∧
      (h.current_state.current_state ≠ POKER_HAND_STATE_UNMASK_COMMUNITY_CARDS →
        (h.submit_community_cards player round ccards).1 = .error "Not in bet state"))
    ∧ ((h.submit_bet player amount).2 = h ∧
      (h.current_state.current_state = POKER_HAND_STATE_BET →
        (h.submit_bet player amount).1 = .error "Not your turn to bet") ∧
      (h.current_state.current_state ≠ POKER_HAND_STATE_BET →
        (h.submit_bet player amount).1 = .error "Not in bet state"))
    ∧ ((h.submit_public_key player pk traces).2 = h ∧
      (h.current_state.current_state = POKER_HAND_STATE_SUBMIT_PUBLIC_KEY →
        (h.submit_public_key player pk traces).1 =
          .error "Not your turn to submit public key") ∧
      (h.current_state.current_state ≠ POKER_HAND_STATE_SUBMIT_PUBLIC_KEY →
        (h.submit_public_key player pk traces).1 =
          .error "Not in submit public key state")) := by
  have hne' : h.current_state.current_player ≠ player := Ne.symm hne
  refine ⟨?_, ?_, ?_, ?_, ?_, ?_, ?_, ?_⟩
  · by_cases h1 : h.current_state.current_state = POKER_HAND_STATE_SHUFFLE
    · have hq : h.submit_shuffled_deck player deck =
          (.error "Not your turn to shuffle", h) := by
        unfold PokerHand.submit_shuffled_deck
        rw [if_neg (fun hc => hc h1), if_pos hne']
      rw [hq]
      exact ⟨rfl, fun _ => rfl, fun hm => absurd h1 hm⟩
    · have hq : h.submit_shuffled_deck player deck = (.error "Not in shuffle state", h) := by
        unfold PokerHand.submit_shuffled_deck
        rw [if_pos h1]
      rw [hq]
      exact ⟨rfl, fun hm => absurd hm h1, fun _ => rfl⟩
  · by_cases h1 : h.current_state.current_state = POKER_HAND_STATE_SMALL_BLIND
    · have hq : h.submit_small_blind player =
          (.error "Not your turn to post small blind", h) := by
        unfold PokerHand.submit_small_blind
        rw [if_neg (fun hc => hc h1), if_pos hne']
      rw [hq]
      exact ⟨rfl, fun _ => rfl, fun hm => absurd h1 hm⟩
    · have hq : h.submit_small_blind player = (.error "Not in small blind state", h) := by
        unfold PokerHand.submit_small_blind
        rw [if_pos h1]
      rw [hq]
      exact ⟨rfl, fun hm => absurd hm h1, fun _ => rfl⟩
  · by_cases h1 : h.current_state.current_state = POKER_HAND_STATE_BIG_BLIND
    · have hq : h.submit_big_blind player =
          (.error "Not your turn to post big blind", h) := by
        unfold PokerHand.submit_big_blind
        rw [if_neg (fun hc => hc h1), if_pos hne']
      rw [hq]
      exact ⟨rfl, fun _ => rfl, fun hm => absurd h1 hm⟩
    · have hq : h.submit_big_blind player = (.error "Not in big blind state", h) := by
        unfold PokerHand.submit_big_blind
        rw [if_pos h1]
      rw [hq]
      exact ⟨rfl, fun hm => absurd hm h1, fun _ => rfl⟩
  · by_cases h1 : h.current_state.current_state = POKER_HAND_STATE_UNMASK_HOLE_CARDS
    · have hq : h.submit_player_cards player cardsList =
          (.error "Not your turn to unmask hole cards", h) := by
        unfold PokerHand.submit_player_cards
        rw [if_neg (fun hc => hc h1), if_pos hne']
      rw [hq]
      exact ⟨rfl, fun _ => rfl, fun hm => absurd h1 hm⟩
    · have hq : h.submit_player_cards player cardsList =
          (.error "Not in unmask hole cards state", h) := by
        unfold PokerHand.submit_player_cards
        rw [if_pos h1]
      rw [hq]
      exact ⟨rfl, fun hm => absurd hm h1, fun _ => rfl⟩
  · by_cases h1 : h.current_state.current_state = POKER_HAND_STATE_UNMASK_SHOWDOWN
    · have hq : h.submit_player_cards_showdown player cardsList =
          (.error "Not your turn to unmask hole cards", h) := by
        unfold PokerHand.submit_player_cards_showdown
        rw [if_neg (fun hc => hc h1), if_pos hne']
      rw [hq]
      exact ⟨rfl, fun _ => rfl, fun hm => absurd h1 hm⟩
    · have hq : h.submit_player_cards_showdown player cardsList =
          (.error "Not in unmask hole cards state", h) := by
        unfold PokerHand.submit_player_cards_showdown
        rw [if_pos h1]
      rw [hq]
      exact ⟨rfl, fun hm => absurd hm h1, fun _ => rfl⟩
  · by_cases h1 : h.current_state.current_state = POKER_HAND_STATE_UNMASK_COMMUNITY_CARDS
    · by_cases h2 : h.current_state.current_round = round
      · have hq : h.submit_community_cards player round ccards =
            (.error "Not your turn to bet", h) := by
          unfold PokerHand.submit_community_cards
          rw [if_neg (fun hc => hc h1), if_neg (fun hc => hc h2), if_pos hne']
        rw [hq]
        exact ⟨rfl, fun _ _ => rfl, fun _ hm => absurd h2 hm, fun hm => absurd h1 hm⟩
      · have hq : h.submit_community_cards player round ccards =
            (.error "Not this round to unmask cards", h) := by
          unfold PokerHand.submit_community_cards
          rw [if_neg (fun hc => hc h1), if_pos h2]
        rw [hq]
        exact ⟨rfl, fun _ hm => absurd hm h2, fun _ _ => rfl, fun hm => absurd h1 hm⟩
    · have hq : h.submit_community_cards player round ccards =
          (.error "Not in bet state", h) := by
        unfold PokerHand.submit_community_cards
        rw [if_pos h1]
      rw [hq]
      exact ⟨rfl, fun hm _ => absurd hm h1, fun hm _ => absurd hm h1, fun _ => rfl⟩
  · by_cases h1 : h.current_state.current_state = POKER_HAND_STATE_BET
    · have hq : h.submit_bet player amount = (.error "Not your turn to bet", h) := by
        unfold PokerHand.submit_bet
        rw [if_neg (fun hc => hc h1), if_pos hne']
      rw [hq]
      exact ⟨rfl, fun _ => rfl, fun hm => absurd h1 hm⟩
    · have hq : h.submit_bet player amount = (.error "Not in bet state", h) := by
        unfold PokerHand.submit_bet
        rw [if_pos h1]
      rw [hq]
      exact ⟨rfl, fun hm => absurd hm h1, fun _ => rfl⟩
  · by_cases h1 : h.current_state.current_state = POKER_HAND_STATE_SUBMIT_PUBLIC_KEY
    · have hq : h.submit_public_key player pk traces =
          (.error "Not your turn to submit public key", h) := by
        unfold PokerHand.submit_public_key
        rw [if_neg (fun hc => hc h1), if_pos hne']
      rw [hq]
      exact ⟨rfl, fun _ => rfl, fun hm => absurd h1 hm⟩
    · have hq : h.submit_public_key player pk traces =
          (.error "Not in submit public key state", h) := by
        unfold PokerHand.submit_public_key
        rw [if_pos h1]
      rw [hq]
      exact ⟨rfl, fun hm => absurd hm h1, fun _ => rfl⟩

/-- Claim C7 witness: on a fresh hand a wrong-actor shuffle submission
leaves the hand unchanged. -/
theorem C7_wrong_turn_rejects_unchanged_witness :
    (exHand0.submit_shuffled_deck 1 exDeck).2 = exHand0 :=
  (C7_wrong_turn_rejects_unchanged exHand0 1 0 0 exDeck [] [] 0 [] (by decide)).1.1

/-! Helper lemmas: the working deck never grows inside the round-completion
helper or the unmasking audit, and the state byte the helpers can produce. -/

theorem dealHoleCards_length (deck : List F) (l : List (List F)) :
    (dealHoleCards deck l).2.length ≤ deck.length := by
  induction l generalizing deck with
  | nil => exact le_rfl
  | cons x t ih =>
    calc (dealHoleCards (deck.drop 2) t).2.length ≤ (deck.drop 2).length := ih _
    _ ≤ deck.length := by simp

theorem check_brc_deck (h : PokerHand F) :
    h.check_betting_round_complete.2.shuffled_deck.length ≤ h.shuffled_deck.length := by
  simp only [PokerHand.check_betting_round_complete]
  by_cases hc : h.betting_state.is_betting_round_complete = true
  · rw [if_pos hc]
    rcases hnr : h.current_state.next_dealer.next_round with e | fs
    · simp only [hnr]
      exact le_rfl
    · simp only [hnr]
      by_cases hf : fs.1 = true
      · rw [if_pos hf]
      · rw [if_neg hf]
        simp [MaskedCards.deal]
  · rw [if_neg hc]

theorem check_brc_state (h : PokerHand F) :
    h.check_betting_round_complete.2.current_state.current_state
        = h.current_state.current_state ∨
    h.check_betting_round_complete.2.current_state.current_state
        = POKER_HAND_STATE_UNMASK_COMMUNITY_CARDS ∨
    h.check_betting_round_complete.2.current_state.current_state
        = POKER_HAND_STATE_UNMASK_SHOWDOWN := by
  simp only [PokerHand.check_betting_round_complete]
  by_cases hc : h.betting_state.is_betting_round_complete = true
  · rw [if_pos hc]
    rcases hnr : h.current_state.next_dealer.next_round with e | fs
    · simp only [hnr]
      exact Or.inl rfl
    · simp only [hnr]
      by_cases hf : fs.1 = true
      · rw [if_pos hf]
        exact Or.inr (Or.inr rfl)
      · rw [if_neg hf]
        exact Or.inr (Or.inl rfl)
  · rw [if_neg hc]
    exact Or.inl rfl

theorem verify_unmasking_deck (h : PokerHand F) :
    h.verify_unmasking.2.shuffled_deck = h.shuffled_deck := by
  simp only [PokerHand.verify_unmasking]
  rcases hl : h.shuffle_history.getLast? with _ | fd
  · simp only [hl]
  · simp only [hl]
    rcases hr : replayCheck h.player_keys h.current_state.num_players
        h.unmasking_sequence
        (initReplaySt h.current_state.num_players fd) with e | o
    · simp only [hr]
    · cases o <;> simp only [hr]

theorem verify_unmasking_state (h : PokerHand F) :
    h.verify_unmasking.2.current_state.current_state = h.current_state.current_state ∨
    h.verify_unmasking.2.current_state.current_state = POKER_HAND_STATE_CHEATED := by
  simp only [PokerHand.verify_unmasking]
  rcases hl : h.shuffle_history.getLast? with _ | fd
  · simp only [hl]
    exact Or.inl trivial
  · simp only [hl]
    rcases hr : replayCheck h.player_keys h.current_state.num_players
        h.unmasking_sequence
        (initReplaySt h.current_state.num_players fd) with e | o
    · simp only [hr]
      exact Or.inl trivial
    · cases o <;> simp only [hr]
      · exact Or.inl trivial
      · exact Or.inr trivial

/-- Claim C8 counterexample: `submit_shuffled_deck` has no length check, so
submitting a 53-card deck to a fresh 52-card hand succeeds and grows the
working masked deck, refuting the claim that no submission can make it
longer. -/
theorem C8_deck_length_counterexample :
    (exHand0.submit_shuffled_deck 0 (List.replicate 53 (0 : FF))).1 = .ok () ∧
    exHand0.shuffled_deck.length = 52 ∧
    (exHand0.submit_shuffled_deck 0 (List.replicate 53 (0 : FF))).2.shuffled_deck.length
      = 53 := by
  exact ⟨by decide, by decide, by decide⟩

/-- Claim C8 (amended): `deal n` (with `n` within the deck, as the source
`drain` panics otherwise) removes exactly `n` cards and, for `n ≥ 1`,
strictly shrinks the deck; every submission other than `submit_shuffled_deck`
never lengthens the working masked deck; `submit_shuffled_deck`, however,
replaces the working deck with the submitted one (or fails leaving the hand
unchanged), so the deck grows exactly when a longer deck is submitted. -/
theorem C8_deck_never_grows (h : PokerHand F) (player round amount n : ℕ)
    (deck ccards dk : List F) (cardsList : List (List F)) (pk : F)
    (traces : List ShuffleTrace) :
    (1 ≤ n → n ≤ dk.length →
      (MaskedCards.deal dk n).2.length = dk.length - n ∧
      (MaskedCards.deal dk n).2.length < dk.length)
    ∧ (h.submit_small_blind player).2.shuffled_deck.length ≤ h.shuffled_deck.length
    ∧ (h.submit_big_blind player).2.shuffled_deck.length ≤ h.shuffled_deck.length
    ∧ (h.submit_player_cards player cardsList).2.shuffled_deck.length
        ≤ h.shuffled_deck.length
    ∧ (h.submit_player_cards_showdown player cardsList).2.shuffled_deck.length
        ≤ h.shuffled_deck.length
    ∧ (h.submit_community_cards player round ccards).2.shuffled_deck.length
        ≤ h.shuffled_deck.length
    ∧ (h.submit_bet player amount).2.shuffled_deck.length ≤ h.shuffled_deck.length
    ∧ (h.submit_public_key player pk traces).2.shuffled_deck.length
        ≤ h.shuffled_deck.length
    ∧ ((h.submit_shuffled_deck player deck).2.shuffled_deck = deck ∨
       (h.submit_shuffled_deck player deck).2 = h) := by
  refine ⟨?_, ?_, ?_, ?_, ?_, ?_, ?_, ?_, ?_⟩
  · intro h1 h2
    constructor
    · simp [MaskedCards.deal]
    · simp only [MaskedCards.deal, List.length_drop]
      omega
  · simp only [PokerHand.submit_small_blind]
    split_ifs with h1 h2
    · exact le_rfl
    · exact le_rfl
    · rcases hpa : h.betting_state.process_action player h.get_small_blind with e | bs <;>
        simp only [hpa] <;> exact le_rfl
  · simp only [PokerHand.submit_big_blind]
    split_ifs with h1 h2
    · exact le_rfl
    · exact le_rfl
    · rcases hpa : h.betting_state.process_action player h.get_big_blind with e | bs <;>
        simp only [hpa]
      · exact le_rfl
      · exact dealHoleCards_length _ _
  · simp only [PokerHand.submit_player_cards]
    split_ifs with h1 h2 h3 h4
    · exact le_rfl
    · exact le_rfl
    · exact le_rfl
    · exact check_brc_deck _
    · exact le_rfl
  · simp only [PokerHand.submit_player_cards_showdown]
    split_ifs with h1 h2 h3 h4
    · exact le_rfl
    · exact le_rfl
    · exact le_rfl
    · exact le_rfl
    · exact le_rfl
  · simp only [PokerHand.submit_community_cards]
    split_ifs with h1 h2 h3 h4
    · exact le_rfl
    · exact le_rfl
    · exact le_rfl
    · exact check_brc_deck _
    · exact le_rfl
  · simp only [PokerHand.submit_bet]
    split_ifs with h1 h2
    · exact le_rfl
    · exact le_rfl
    · rcases hpa : h.betting_state.process_action player amount with e | bs <;>
        simp only [hpa]
      · exact le_rfl
      · exact check_brc_deck _
  · simp only [PokerHand.submit_public_key]
    split_ifs with h1 h2 h3 h4
    · exact le_rfl
    · exact le_rfl
    · exact le_rfl
    · rcases hv : PokerHand.verify_unmasking
          { h with
            player_keys := h.player_keys.set player (some pk)
            current_state := ({ h with
              player_keys := h.player_keys.set player (some pk) }).current_state.next_player.1 }
          with ⟨r, h₃⟩
      have hd := verify_unmasking_deck { h with
        player_keys := h.player_keys.set player (some pk)
        current_state := ({ h with
          player_keys := h.player_keys.set player (some pk) }).current_state.next_player.1 }
      rw [hv] at hd
      simp only [hv]
      rcases r with e | o
      · exact le_of_eq (congrArg List.length hd)
      · rcases o with _ | c <;> exact le_of_eq (congrArg List.length hd)
    · exact le_rfl
  · simp only [PokerHand.submit_shuffled_deck]
    split_ifs with h1 h2 h3
    · exact Or.inr rfl
    · exact Or.inr rfl
    · exact Or.inl rfl
    · exact Or.inl rfl

/-- Claim C8 witness: dealing three cards from the 52-card deck leaves 49. -/
theorem C8_deck_never_grows_witness :
    (MaskedCards.deal exDeck 3).2.length = exDeck.length - 3 ∧
    (MaskedCards.deal exDeck 3).2.length < exDeck.length :=
  (C8_deck_never_grows exHand0 0 0 0 3 exDeck [] exDeck [] 0 []).1
    (by decide) (by decide)

/-- The cursor loop of `next_player_masked` only moves `current_player`;
the state byte is untouched. -/
theorem nextPlayerLoop_state (mask : List Bool) (start fuel : ℕ) (s : PokerHandState) :
    (PokerHandState.nextPlayerLoop mask start fuel s).1.current_state = s.current_state := by
  induction fuel generalizing s with
  | zero => rfl
  | succ f ih =>
    simp only [PokerHandState.nextPlayerLoop]
    split_ifs with hm hs
    · rfl
    · rfl
    · exact ih _

/-- `next_player_masked` only moves `current_player`; the state byte is
untouched. -/
theorem next_player_masked_state (s : PokerHandState) (mask : List Bool) (fd : Bool) :
    (s.next_player_masked mask fd).1.current_state = s.current_state := by
  simp only [PokerHandState.next_player_masked]
  split_ifs
  all_goals first
    | rfl
    | (rw [nextPlayerLoop_state]; try rfl)

/-- After the round-completion helper runs on a hand sitting in the `Bet`
phase, the state byte is `Bet`, `UnmaskCommunityCards` or
`UnmaskShowdown`; starting from an unmasking phase this is exactly the
step allowed by the amended phase-monotonicity claim. -/
theorem state_step_via_brc {a : ℕ} (x : PokerHand F)
    (hx : x.current_state.current_state = POKER_HAND_STATE_BET)
    (ha : a = POKER_HAND_STATE_UNMASK_HOLE_CARDS ∨
      a = POKER_HAND_STATE_UNMASK_COMMUNITY_CARDS) :
    a ≤ x.check_betting_round_complete.2.current_state.current_state ∨
    (x.check_betting_round_complete.2.current_state.current_state = POKER_HAND_STATE_BET ∧
      (a = POKER_HAND_STATE_UNMASK_HOLE_CARDS ∨
       a = POKER_HAND_STATE_UNMASK_COMMUNITY_CARDS)) := by
  rcases check_brc_state x with hs | hs | hs
  · rw [hx] at hs
    exact Or.inr ⟨hs, ha⟩
  · left
    rw [hs]
    rcases ha with rfl | rfl <;> decide
  · left
    rw [hs]
    rcases ha with rfl | rfl <;> decide

/-- From the `Bet` phase the round-completion helper never moves the state
byte below `Bet`. -/
theorem bet_le_brc (x : PokerHand F)
    (hx : x.current_state.current_state = POKER_HAND_STATE_BET) :
    POKER_HAND_STATE_BET ≤ x.check_betting_round_complete.2.current_state.current_state := by
  rcases check_brc_state x with hs | hs | hs
  · rw [hs, hx]
  · rw [hs]
    decide
  · rw [hs]
    decide

/-- Claim C9 counterexample: a successful `submit_player_cards` that
completes the `UnmaskHoleCards` phase (state index 4) moves the hand to the
`Bet` phase (state index 3), so the state index decreases across a
successful submission. -/
theorem C9_state_index_counterexample :
    (exHandE.submit_player_cards 1 [[], []]).1 = .ok () ∧
    exHandE.current_state.current_state = 4 ∧
    (exHandE.submit_player_cards 1 [[], []]).2.current_state.current_state = 3 := by
  exact ⟨by decide, by decide, by decide⟩

/-- Claim C9 (amended): across every successful submission the numeric
state index does not decrease, except that completing `UnmaskHoleCards`
(index 4) or `UnmaskCommunityCards` (index 5) sets the state to `Bet`
(index 3). -/
theorem C9_state_index_monotone (h : PokerHand F) (player round amount : ℕ)
    (deck ccards : List F) (cardsList : List (List F)) (pk : F)
    (traces : List ShuffleTrace) :
    ((h.submit_shuffled_deck player deck).1 = .ok () →
      h.current_state.current_state
        ≤ (h.submit_shuffled_deck player deck).2.current_state.current_state)
    ∧ ((h.submit_small_blind player).1 = .ok () →
      h.current_state.current_state
        ≤ (h.submit_small_blind player).2.current_state.current_state)
    ∧ ((h.submit_big_blind player).1 = .ok () →
      h.current_state.current_state
        ≤ (h.submit_big_blind player).2.current_state.current_state)
    ∧ ((h.submit_player_cards player cardsList).1 = .ok () →
      (h.current_state.current_state
        ≤ (h.submit_player_cards player cardsList).2.current_state.current_state ∨
       ((h.submit_player_cards player cardsList).2.current_state.current_state
          = POKER_HAND_STATE_BET ∧
        (h.current_state.current_state = POKER_HAND_STATE_UNMASK_HOLE_CARDS ∨
         h.current_state.current_state = POKER_HAND_STATE_UNMASK_COMMUNITY_CARDS))))
    ∧ ((h.submit_player_cards_showdown player cardsList).1 = .ok () →
      h.current_state.current_state
        ≤ (h.submit_player_cards_showdown player cardsList).2.current_state.current_state)
    ∧ ((h.submit_community_cards player round ccards).1 = .ok () →
      (h.current_state.current_state
        ≤ (h.submit_community_cards player round ccards).2.current_state.current_state ∨
       ((h.submit_community_cards player round ccards).2.current_state.current_state
          = POKER_HAND_STATE_BET ∧
        (h.current_state.current_state = POKER_HAND_STATE_UNMASK_HOLE_CARDS ∨
         h.current_state.current_state = POKER_HAND_STATE_UNMASK_COMMUNITY_CARDS))))
    ∧ ((h.submit_bet player amount).1 = .ok () →
      h.current_state.current_state
        ≤ (h.submit_bet player amount).2.current_state.current_state)
    ∧ ((h.submit_public_key player pk traces).1 = .ok () →
      h.current_state.current_state
        ≤ (h.submit_public_key player pk traces).2.current_state.current_state) := by
  refine ⟨?_, ?_, ?_, ?_, ?_, ?_, ?_, ?_⟩
  · simp only [PokerHand.submit_shuffled_deck]
    split_ifs with h1 h2 h3
    · intro _; exact le_rfl
    · intro _; exact le_rfl
    · intro _
      rw [not_not.mp h1]
      exact Nat.zero_le _
    · intro _; exact le_rfl
  · simp only [PokerHand.submit_small_blind]
    split_ifs with h1 h2
    · intro _; exact le_rfl
    · intro _; exact le_rfl
    · rcases hpa : h.betting_state.process_action player h.get_small_blind with e | bs <;>
        simp only [hpa]
      · intro _; exact le_rfl
      · intro _
        rw [not_not.mp h1]
        decide
  · simp only [PokerHand.submit_big_blind]
    split_ifs with h1 h2
    · intro _; exact le_rfl
    · intro _; exact le_rfl
    · rcases hpa : h.betting_state.process_action player h.get_big_blind with e | bs <;>
        simp only [hpa]
      · intro _; exact le_rfl
      · intro _
        rw [not_not.mp h1]
        decide
  · simp only [PokerHand.submit_player_cards]
    split_ifs with h1 h2 h3 h4
    · intro _; exact Or.inl le_rfl
    · intro _; exact Or.inl le_rfl
    · intro _; exact Or.inl le_rfl
    · intro _
      exact state_step_via_brc _ rfl (Or.inl (not_not.mp h1))
    · intro _; exact Or.inl le_rfl
  · simp only [PokerHand.submit_player_cards_showdown]
    split_ifs with h1 h2 h3 h4
    · intro _; exact le_rfl
    · intro _; exact le_rfl
    · intro _; exact le_rfl
    · intro _
      rw [not_not.mp h1]
      show POKER_HAND_STATE_UNMASK_SHOWDOWN ≤ POKER_HAND_STATE_SUBMIT_PUBLIC_KEY
      decide
    · intro _; exact le_rfl
  · simp only [PokerHand.submit_community_cards]
    split_ifs with h1 h2 h3 h4
    · intro _; exact Or.inl le_rfl
    · intro _; exact Or.inl le_rfl
    · intro _; exact Or.inl le_rfl
    · intro _
      exact state_step_via_brc _ rfl (Or.inr (not_not.mp h1))
    · intro _; exact Or.inl le_rfl
  · simp only [PokerHand.submit_bet]
    split_ifs with h1 h2
    · intro _; exact le_rfl
    · intro _; exact le_rfl
    · rcases hpa : h.betting_state.process_action player amount with e | bs <;>
        simp only [hpa]
      · intro _; exact le_rfl
      · intro _
        rw [not_not.mp h1]
        refine bet_le_brc _ ?_
        show (h.current_state.next_player_masked bs.active_players false).1.current_state
          = POKER_HAND_STATE_BET
        rw [next_player_masked_state]
        exact not_not.mp h1
  · simp only [PokerHand.submit_public_key]
    split_ifs with h1 h2 h3 h4
    · intro _; exact le_rfl
    · intro _; exact le_rfl
    · intro _
      rw [not_not.mp h1]
      show POKER_HAND_STATE_SUBMIT_PUBLIC_KEY ≤ POKER_HAND_STATE_CHEATED
      decide
    · rcases hv : PokerHand.verify_unmasking
          { h with
            player_keys := h.player_keys.set player (some pk)
            current_state := ({ h with
              player_keys := h.player_keys.set player (some pk) }).current_state.next_player.1 }
          with ⟨r, h₃⟩
      have hst := verify_unmasking_state { h with
        player_keys := h.player_keys.set player (some pk)
        current_state := ({ h with
          player_keys := h.player_keys.set player (some pk) }).current_state.next_player.1 }
      rw [hv] at hst
      simp only [hv]
      rcases r with e | o
      · intro _
        rw [not_not.mp h1]
        rcases hst with hs | hs
        · show POKER_HAND_STATE_SUBMIT_PUBLIC_KEY ≤ (Except.error e, h₃).2.current_state.current_state
          rw [hs]
          exact le_of_eq (not_not.mp h1).symm
        · show POKER_HAND_STATE_SUBMIT_PUBLIC_KEY ≤ (Except.error e, h₃).2.current_state.current_state
          rw [hs]
          decide
      · rcases o with _ | c
        · intro _
          rw [not_not.mp h1]
          show POKER_HAND_STATE_SUBMIT_PUBLIC_KEY ≤ POKER_HAND_STATE_FINISHED
          decide
        · intro _
          rw [not_not.mp h1]
          show POKER_HAND_STATE_SUBMIT_PUBLIC_KEY ≤ POKER_HAND_STATE_CHEATED
          decide
    · intro _
      show h.current_state.current_state ≤ h.current_state.current_state
      exact le_rfl

/-- Claim C9 witness: a successful shuffle submission keeps the state index
at least as large. -/
theorem C9_state_index_monotone_witness :
    exHand0.current_state.current_state
      ≤ (exHand0.submit_shuffled_deck 0 exDeck).2.current_state.current_state :=
  (C9_state_index_monotone exHand0 0 0 0 exDeck [] [] 0 []).1 (by decide)

/-! ## Claim C6: commutative unmasking -/

/-- Layering masks `k_1 .. k_n` onto a point multiplies it by the product of
the scalars. -/
theorem mask_foldl (P : F) (ks : List F) :
    List.foldl mask P ks = P * ks.prod := by
  induction ks generalizing P with
  | nil => simp [mask]
  | cons k t ih =>
    simp only [List.foldl_cons, List.prod_cons, ih, mask]
    ring

/-- Unmasking a singleton hand through a list of nonzero keys divides by
their product. -/
theorem unmaskSeq_singleton (x : F) (ks : List F) (h0 : ∀ k ∈ ks, k ≠ 0) :
    unmaskSeq [x] ks = some [x * (ks.prod)⁻¹] := by
  induction ks generalizing x with
  | nil => simp [unmaskSeq]
  | cons k t ih =>
    have hk : k ≠ 0 := h0 k (List.mem_cons_self k t)
    have hrest : ∀ j ∈ t, j ≠ 0 := fun j hj => h0 j (List.mem_cons_of_mem k hj)
    have hstep : unmaskCards [x] k = some [x * k⁻¹] := by
      simp [unmaskCards, scalarInvert, if_neg hk, mask]
    simp only [unmaskSeq, List.foldlM_cons, hstep, Option.bind_eq_bind, Option.some_bind]
    have hind := ih (x * k⁻¹) hrest
    simp only [unmaskSeq] at hind
    rw [hind, List.prod_cons, mul_inv]
    congr 2
    ring

/-- Claim C6: for every G1 point `P` and all nonzero scalars `k_1..k_n`,
unmasking the point `(∏ k_i) · P` (obtained by layering the masks) with the
key inverses applied in any order yields `P` again. -/
theorem C6_commutative_unmask (P : F) (ks ks' : List F) (hperm : ks.Perm ks')
    (h0 : ∀ k ∈ ks, k ≠ 0) :
    unmaskSeq [List.foldl mask P ks] ks' = some [P] := by
  have h0' : ∀ k ∈ ks', k ≠ 0 := fun k hk => h0 k (hperm.mem_iff.mpr hk)
  have hpz : ks'.prod ≠ 0 := by
    intro hz
    rcases (List.prod_eq_zero_iff).mp hz with hmem
    exact h0' 0 hmem rfl
  rw [mask_foldl, unmaskSeq_singleton _ _ h0', hperm.prod_eq]
  rw [mul_inv_cancel_right₀ hpz]

/-- Claim C6 witness: over `ZMod 5`, the point `2` masked by `2` then `3`
and unmasked in the opposite order returns to `2`. -/
theorem C6_commutative_unmask_witness :
    unmaskSeq [List.foldl mask (2 : FF) [2, 3]] [3, 2] = some [2] :=
  C6_commutative_unmask 2 [2, 3] [3, 2] (by decide) (by decide)

/-! ## Claim C2: soundness of `verify_shuffle_traced` -/

/-- The batched Miller loop is additive in the exponent over concatenation
of operand lists. -/
theorem millerSum_append (l₁ l₂ : List (F × F)) :
    millerSum (l₁ ++ l₂) = millerSum l₁ + millerSum l₂ := by
  simp [millerSum]

/-- The trace loop of `verify_shuffle_traced` succeeds on an honest trace
and only ever appends cancelling pairing-operand pairs, so the accumulated
exponent stays put. -/
theorem collectTraceTerms_ok (mb ma : List F) (k : F) (traces : List ShuffleTrace) :
    ∀ (used : List ℕ) (terms : List (F × F)),
    (∀ t ∈ traces, t.after_index < ma.length ∧ t.claimed_before_index < mb.length ∧
        ma.getD t.after_index 0 = k * mb.getD t.claimed_before_index 0) →
    (∀ t ∈ traces, t.claimed_before_index ∉ used) →
    (traces.map (fun t => t.claimed_before_index)).Nodup →
    ∃ terms', collectTraceTerms mb ma (k * g2Gen F) traces used terms = .ok terms' ∧
      millerSum terms' = millerSum terms := by
  induction traces with
  | nil =>
    intro used terms _ _ _
    exact ⟨terms, rfl, rfl⟩
  | cons t rest ih =>
    intro used terms hb hu hnd
    obtain ⟨h1, h2, h3⟩ := hb t (List.mem_cons_self t rest)
    have hbr : ∀ u ∈ rest, u.after_index < ma.length ∧ u.claimed_before_index < mb.length ∧
        ma.getD u.after_index 0 = k * mb.getD u.claimed_before_index 0 :=
      fun u hu' => hb u (List.mem_cons_of_mem t hu')
    have hnd' := hnd
    rw [List.map_cons, List.nodup_cons] at hnd'
    have hur : ∀ u ∈ rest, u.claimed_before_index ∉ t.claimed_before_index :: used := by
      intro u hu' hmem
      rcases List.mem_cons.mp hmem with he | hm
      · exact hnd'.1 (he ▸ List.mem_map_of_mem (fun v => v.claimed_before_index) hu')
      · exact hu u (List.mem_cons_of_mem t hu') hm
    obtain ⟨terms', heq, hsum⟩ := ih (t.claimed_before_index :: used)
      (terms ++ [(ma.getD t.after_index 0, -(g2Gen F)),
                 (mb.getD t.claimed_before_index 0, k * g2Gen F)])
      hbr hur hnd'.2
    refine ⟨terms', ?_, ?_⟩
    · simp only [collectTraceTerms]
      rw [if_neg (by omega), if_neg (hu t (List.mem_cons_self t rest))]
      exact heq
    · rw [hsum, millerSum_append]
      have hz : millerSum [(ma.getD t.after_index 0, -(g2Gen F)),
          (mb.getD t.claimed_before_index 0, k * g2Gen F)] = 0 := by
        simp only [millerSum, List.map_cons, List.map_nil, List.sum_cons, List.sum_nil, h3,
          g2Gen]
        ring
      rw [hz, add_zero]

/-- Claim C2: for every deck `before`, nonzero scalar `k` and trace that
lists each output's true source (`after[t.after_index] =
k · before[t.claimed_before_index]` with distinct in-bounds source
indices), `verify_shuffle_traced before after (k · G2gen) trace` returns
`Ok`. -/
theorem C2_verify_shuffle_traced_sound (mb ma : List F) (k : F)
    (traces : List ShuffleTrace) (hk : k ≠ 0)
    (hb : ∀ t ∈ traces, t.after_index < ma.length ∧ t.claimed_before_index < mb.length ∧
        ma.getD t.after_index 0 = k * mb.getD t.claimed_before_index 0)
    (hnd : (traces.map (fun t => t.claimed_before_index)).Nodup) :
    verify_shuffle_traced mb ma (k * g2Gen F) traces = .ok () := by
  obtain ⟨terms', heq, hsum⟩ :=
    collectTraceTerms_ok mb ma k traces [] [] hb (by simp) hnd
  simp only [verify_shuffle_traced, heq]
  rw [if_pos]
  simp only [pairingIsIdentity, hsum]
  simp [millerSum]

/-- Claim C2 witness: over `ZMod 5`, the deck `[1, 2]` masked by `k = 2`
into `[2, 4]` with the identity trace verifies. -/
theorem C2_verify_shuffle_traced_sound_witness :
    verify_shuffle_traced ([1, 2] : List FF) [2, 4] (2 * g2Gen FF)
      [⟨0, 0⟩, ⟨1, 1⟩] = .ok () :=
  C2_verify_shuffle_traced_sound [1, 2] [2, 4] 2 [⟨0, 0⟩, ⟨1, 1⟩]
    (by decide) (by decide) (by decide)

/-! ## Claim C1: the unmasking audit

The compiled checker (`replayCheck`, from `poker_hand.rs`) is related to
the trail collector (`collectReplay`, the audit-trail construction of
`poker_hand_verify.rs`): the checker accepts exactly when every collected
peel passes the atomic audit, and otherwise reports the acting player of
the first failing peel. -/

theorem peelList_actor (ap : ℕ) (b a : List F) (t : PeelTriple F)
    (ht : t ∈ peelList ap b a) : t.actor = ap := by
  simp only [peelList, List.mem_map] at ht
  obtain ⟨p, _, hp⟩ := ht
  rw [← hp]

theorem collectTargets_actor (ap : ℕ) (cards : List (List F)) :
    ∀ (ts : List ℕ) (tr : List (List F)) (t : PeelTriple F),
    t ∈ (collectTargets ap cards ts tr).1 → t.actor = ap := by
  intro ts
  induction ts with
  | nil =>
    intro tr t ht
    simp [collectTargets] at ht
  | cons x xs ih =>
    intro tr t ht
    simp only [collectTargets] at ht
    split_ifs at ht with hx
    · exact ih tr t ht
    · rcases List.mem_append.mp ht with hl | hr
      · exact peelList_actor ap _ _ t hl
      · exact ih _ t hr

theorem collectReplay_actor (n : ℕ) :
    ∀ (entries : List (ℕ × ℕ × List (List F))) (rs : ReplaySt F) (t : PeelTriple F),
    t ∈ (collectReplay n entries rs).1 → ∃ e ∈ entries, t.actor = e.1 := by
  intro entries
  induction entries with
  | nil =>
    intro rs t ht
    simp [collectReplay] at ht
  | cons e rest ih =>
    intro rs t ht
    simp only [collectReplay] at ht
    split_ifs at ht with h1 h2 h3
    · rcases List.mem_append.mp ht with hl | hr
      · exact ⟨e, List.mem_cons_self e rest, collectTargets_actor e.1 e.2.2 _ _ t hl⟩
      · obtain ⟨u, hu, ha⟩ := ih _ t hr
        exact ⟨u, List.mem_cons_of_mem e hu, ha⟩
    · rcases List.mem_append.mp ht with hl | hr
      · exact ⟨e, List.mem_cons_self e rest, peelList_actor e.1 _ _ t hl⟩
      · obtain ⟨u, hu, ha⟩ := ih _ t hr
        exact ⟨u, List.mem_cons_of_mem e hu, ha⟩
    · rcases List.mem_append.mp ht with hl | hr
      · exact ⟨e, List.mem_cons_self e rest, peelList_actor e.1 _ _ t hl⟩
      · obtain ⟨u, hu, ha⟩ := ih _ t hr
        exact ⟨u, List.mem_cons_of_mem e hu, ha⟩
    · obtain ⟨u, hu, ha⟩ := ih _ t ht
      exact ⟨u, List.mem_cons_of_mem e hu, ha⟩

theorem all_congr_fun {α : Type} (l : List α) (p q : α → Bool)
    (h : ∀ x ∈ l, p x = q x) : l.all p = l.all q := by
  induction l with
  | nil => rfl
  | cons a t ih =>
    simp only [List.all_cons]
    rw [h a (List.mem_cons_self a t), ih (fun x hx => h x (List.mem_cons_of_mem a hx))]

theorem peelList_all_aux (keys : List (Option F)) (ap : ℕ) (pk : F)
    (hk : keys.getD ap none = some pk) (l : List (F × F)) :
    ((l.map fun p => (⟨p.2, p.1, ap⟩ : PeelTriple F)).all fun t => tripleOk keys t)
      = l.all fun p => verify_unmasking p.1 p.2 pk := by
  induction l with
  | nil => rfl
  | cons x t ih =>
    simp only [List.map_cons, List.all_cons, ih]
    congr 1
    simp only [tripleOk]
    rw [hk]

/-- The per-peel check of the checker agrees with "every collected triple
of this peel passes the audit". -/
theorem peelList_all (keys : List (Option F)) (ap : ℕ) (pk : F)
    (hk : keys.getD ap none = some pk) (b a : List F) :
    (peelList ap b a).all (fun t => tripleOk keys t) = checkCards pk b a := by
  simp only [peelList, checkCards]
  exact peelList_all_aux keys ap pk hk (b.zip a)

/-- The hole-card target loop of the checker succeeds iff every triple the
collector gathers for it passes, and then returns the collector's updated
tracker. -/
theorem checkTargets_eq_collect (keys : List (Option F)) (pk : F) (ap : ℕ)
    (hk : keys.getD ap none = some pk) (cards : List (List F)) :
    ∀ (ts : List ℕ) (tr : List (List F)),
    checkTargets pk ap cards ts tr =
      if ((collectTargets ap cards ts tr).1.all (fun t => tripleOk keys t)) then
        some (collectTargets ap cards ts tr).2
      else none := by
  intro ts
  induction ts with
  | nil =>
    intro tr
    simp [checkTargets, collectTargets]
  | cons x xs ih =>
    intro tr
    simp only [checkTargets, collectTargets]
    by_cases hx : x = ap
    · rw [if_pos hx, if_pos hx]
      exact ih tr
    · rw [if_neg hx, if_neg hx]
      rw [List.all_append, peelList_all keys ap pk hk]
      by_cases hc : checkCards pk (tr.getD x []) (cards.getD x []) = true
      · rw [if_pos hc, ih, hc]
        simp
      · rw [if_neg hc]
        rw [Bool.not_eq_true] at hc
        rw [hc]
        simp

/-- The checker of `poker_hand.rs` equals "first failing peel of the
collected audit trail": it answers `Ok none` when every collected triple
passes, and `Ok (some p)` with `p` the acting player of the first failing
triple otherwise. -/
theorem replayCheck_eq_firstCheat (keys : List (Option F)) (n : ℕ) :
    ∀ (entries : List (ℕ × ℕ × List (List F))) (rs : ReplaySt F),
    (∀ e ∈ entries, ∃ pk, keys.getD e.1 none = some pk) →
    replayCheck keys n entries rs =
      .ok (firstCheat keys (collectReplay n entries rs).1) := by
  intro entries
  induction entries with
  | nil =>
    intro rs _
    simp [replayCheck, collectReplay, firstCheat]
  | cons e rest ih =>
    intro rs hkeys
    obtain ⟨pk, hk⟩ := hkeys e (List.mem_cons_self e rest)
    have hkr : ∀ u ∈ rest, ∃ pk', keys.getD u.1 none = some pk' :=
      fun u hu => hkeys u (List.mem_cons_of_mem e hu)
    by_cases h1 : e.2.1 = POKER_HAND_STATE_UNMASK_HOLE_CARDS
    · -- hole-card peel by e.1
      rcases hct : checkTargets pk e.1 e.2.2 (List.range n) rs.hole with _ | hole'
      · -- the check failed inside this peel
        have hct2 := hct
        rw [checkTargets_eq_collect keys pk e.1 hk] at hct2
        simp only [replayCheck, collectReplay, hk, if_pos h1, hct]
        split_ifs at hct2 with hall
        rw [Bool.not_eq_true] at hall
        obtain ⟨t₀, ht₀, hft⟩ := List.all_eq_false.mp hall
        have hfind : (collectTargets e.1 e.2.2 (List.range n) rs.hole).1.find?
            (fun t => !(tripleOk keys t)) |>.isSome := by
          rw [List.find?_isSome]
          exact ⟨t₀, ht₀, by simp [hft]⟩
        obtain ⟨t₁, ht₁⟩ := Option.isSome_iff_exists.mp hfind
        have ha := collectTargets_actor e.1 e.2.2 _ _ t₁ (List.mem_of_find?_eq_some ht₁)
        simp only [firstCheat, List.find?_append, ht₁, Option.or_some, Option.map_some']
        rw [ha]
      · -- every pair of this peel passed; recurse with the updated tracker
        have hct2 := hct
        rw [checkTargets_eq_collect keys pk e.1 hk] at hct2
        simp only [replayCheck, collectReplay, hk, if_pos h1, hct]
        split_ifs at hct2 with hall
        injection hct2 with hh
        subst hh
        rw [ih _ hkr]
        have hnone : (collectTargets e.1 e.2.2 (List.range n) rs.hole).1.find?
            (fun t => !(tripleOk keys t)) = none := by
          rw [List.find?_eq_none]
          intro x hx
          simp [List.all_eq_true.mp hall x hx]
        simp only [firstCheat, List.find?_append, hnone, Option.none_or]
    · by_cases h2 : e.2.1 = POKER_HAND_STATE_UNMASK_COMMUNITY_CARDS
      · simp only [replayCheck, collectReplay, hk, if_neg h1, if_pos h2]
        by_cases hc : checkCards pk (rs.comm.getD rs.commIdx []) (e.2.2.getD 0 []) = true
        · rw [if_pos hc, ih _ hkr]
          have hnone : (peelList e.1 (rs.comm.getD rs.commIdx []) (e.2.2.getD 0 [])).find?
              (fun t => !(tripleOk keys t)) = none := by
            rw [List.find?_eq_none]
            intro x hx
            have hall : (peelList e.1 (rs.comm.getD rs.commIdx [])
                (e.2.2.getD 0 [])).all (fun t => tripleOk keys t) = true := by
              rw [peelList_all keys e.1 pk hk]
              exact hc
            simp [List.all_eq_true.mp hall x hx]
          simp only [firstCheat, List.find?_append, hnone, Option.none_or]
        · rw [if_neg hc]
          rw [Bool.not_eq_true] at hc
          have hall : (peelList e.1 (rs.comm.getD rs.commIdx [])
              (e.2.2.getD 0 [])).all (fun t => tripleOk keys t) = false := by
            rw [peelList_all keys e.1 pk hk]
            exact hc
          obtain ⟨t₀, ht₀, hft⟩ := List.all_eq_false.mp hall
          have hfind : (peelList e.1 (rs.comm.getD rs.commIdx [])
              (e.2.2.getD 0 [])).find? (fun t => !(tripleOk keys t)) |>.isSome := by
            rw [List.find?_isSome]
            exact ⟨t₀, ht₀, by simp [hft]⟩
          obtain ⟨t₁, ht₁⟩ := Option.isSome_iff_exists.mp hfind
          have ha := peelList_actor e.1 _ _ t₁ (List.mem_of_find?_eq_some ht₁)
          simp only [firstCheat, List.find?_append, ht₁, Option.or_some, Option.map_some']
          rw [ha]
      · by_cases h3 : e.2.1 = POKER_HAND_STATE_UNMASK_SHOWDOWN
        · simp only [replayCheck, collectReplay, hk, if_neg h1, if_neg h2, if_pos h3]
          by_cases hc : checkCards pk (rs.hole.getD e.1 []) (e.2.2.getD e.1 []) = true
          · rw [if_pos hc, ih _ hkr]
            have hnone : (peelList e.1 (rs.hole.getD e.1 []) (e.2.2.getD e.1 [])).find?
                (fun t => !(tripleOk keys t)) = none := by
              rw [List.find?_eq_none]
              intro x hx
              have hall : (peelList e.1 (rs.hole.getD e.1 [])
                  (e.2.2.getD e.1 [])).all (fun t => tripleOk keys t) = true := by
                rw [peelList_all keys e.1 pk hk]
                exact hc
              simp [List.all_eq_true.mp hall x hx]
            simp only [firstCheat, List.find?_append, hnone, Option.none_or]
          · rw [if_neg hc]
            rw [Bool.not_eq_true] at hc
            have hall : (peelList e.1 (rs.hole.getD e.1 [])
                (e.2.2.getD e.1 [])).all (fun t => tripleOk keys t) = false := by
              rw [peelList_all keys e.1 pk hk]
              exact hc
            obtain ⟨t₀, ht₀, hft⟩ := List.all_eq_false.mp hall
            have hfind : (peelList e.1 (rs.hole.getD e.1 [])
                (e.2.2.getD e.1 [])).find? (fun t => !(tripleOk keys t)) |>.isSome := by
              rw [List.find?_isSome]
              exact ⟨t₀, ht₀, by simp [hft]⟩
            obtain ⟨t₁, ht₁⟩ := Option.isSome_iff_exists.mp hfind
            have ha := peelList_actor e.1 _ _ t₁ (List.mem_of_find?_eq_some ht₁)
            simp only [firstCheat, List.find?_append, ht₁, Option.or_some, Option.map_some']
            rw [ha]
        · simp only [replayCheck, collectReplay, hk, if_neg h1, if_neg h2, if_neg h3]
          exact ih _ hkr

/-- The atomic peel audit under a well-formed key `pk = sk · G2gen` accepts
exactly the honestly-peeled point: `after = sk⁻¹ · before`. -/
theorem tripleOk_iff_sk (keys : List (Option F)) (sk : ℕ → F) (t : PeelTriple F)
    (hk : keys.getD t.actor none = some (sk t.actor * g2Gen F)) (hz : sk t.actor ≠ 0) :
    tripleOk keys t = true ↔ t.unmasked = (sk t.actor)⁻¹ * t.masked := by
  simp only [tripleOk]
  rw [hk]
  simp only [verify_unmasking, pairingIsIdentity, millerSum, g2Gen, List.map_cons,
    List.map_nil, List.sum_cons, List.sum_nil, decide_eq_true_eq]
  rw [eq_inv_mul_iff_mul_eq₀ hz]
  constructor
  · intro hq
    linear_combination hq
  · intro hq
    linear_combination hq

/-- Claim C1: with every acting player's submitted key of the form
`sk · G2gen` (nonzero `sk`) and a nonempty shuffle history,
`PokerHand::verify_unmasking` replays the log against the partitioned final
shuffled deck and (i) reports the hand fair (`Ok none`) iff every replayed
peel of the audit trail satisfies `after = sk_actor⁻¹ · before` on every
affected point, (ii) returns `Ok (some p)` iff `p` is the acting player of
the first failing peel, (iii) leaves the hand untouched when fair, and
(iv) puts the hand in the `Cheated` state when it reports a cheater. -/
theorem C1_verify_unmasking_audit (h : PokerHand F) (sk : ℕ → F)
    (hist : h.shuffle_history ≠ [])
    (hkeys : ∀ e ∈ h.unmasking_sequence,
      h.player_keys.getD e.1 none = some (sk e.1 * g2Gen F) ∧ sk e.1 ≠ 0) :
    ((h.verify_unmasking.1 = .ok none) ↔
      ∀ t ∈ auditTrail h, t.unmasked = (sk t.actor)⁻¹ * t.masked)
    ∧ (∀ c, (h.verify_unmasking.1 = .ok (some c)) ↔
        firstCheat h.player_keys (auditTrail h) = some c)
    ∧ (h.verify_unmasking.1 = .ok none → h.verify_unmasking.2 = h)
    ∧ (∀ c, h.verify_unmasking.1 = .ok (some c) →
        h.verify_unmasking.2.current_state.current_state = POKER_HAND_STATE_CHEATED) := by
  rcases hfd : h.shuffle_history.getLast? with _ | fd
  · exact absurd (List.getLast?_eq_none_iff.mp hfd) hist
  · have hrc := replayCheck_eq_firstCheat h.player_keys h.current_state.num_players
      h.unmasking_sequence (initReplaySt h.current_state.num_players fd)
      (fun e he => ⟨sk e.1 * g2Gen F, (hkeys e he).1⟩)
    have htrail : auditTrail h = (collectReplay h.current_state.num_players
        h.unmasking_sequence (initReplaySt h.current_state.num_players fd)).1 := by
      simp [auditTrail, hfd]
    have htra : ∀ t ∈ auditTrail h, (tripleOk h.player_keys t = true ↔
        t.unmasked = (sk t.actor)⁻¹ * t.masked) := by
      intro t ht
      have htm : t ∈ (collectReplay h.current_state.num_players h.unmasking_sequence
          (initReplaySt h.current_state.num_players fd)).1 := htrail ▸ ht
      obtain ⟨e, he, ha⟩ := collectReplay_actor _ _ _ t htm
      obtain ⟨hk, hz⟩ := hkeys e he
      exact tripleOk_iff_sk h.player_keys sk t (by rw [ha]; exact hk) (by rw [ha]; exact hz)
    rcases hfc : firstCheat h.player_keys (auditTrail h) with _ | c₀
    · -- the trail has no failing peel
      have hallpass : ∀ t ∈ auditTrail h, tripleOk h.player_keys t = true := by
        intro t ht
        have hn : (auditTrail h).find? (fun t => !(tripleOk h.player_keys t)) = none := by
          rcases hcase : (auditTrail h).find?
              (fun t => !(tripleOk h.player_keys t)) with _ | u
          · rfl
          · rw [firstCheat, hcase] at hfc
            simp at hfc
        have := List.find?_eq_none.mp hn t ht
        simpa using this
      have hfc' := hfc
      rw [htrail] at hfc'
      have hv : h.verify_unmasking = (.ok none, h) := by
        simp only [PokerHand.verify_unmasking, hfd, hrc, hfc']
      rw [hv]
      refine ⟨?_, ?_, fun _ => rfl, ?_⟩
      · exact ⟨fun _ t ht => (htra t ht).mp (hallpass t ht), fun _ => rfl⟩
      · intro c
        constructor
        · intro hcon
          simp at hcon
        · intro hcon
          cases hcon
      · intro c hcon
        simp at hcon
    · -- the first failing peel belongs to player c₀
      have hfc' := hfc
      rw [htrail] at hfc'
      have hv : h.verify_unmasking = (.ok (some c₀),
          { h with current_state :=
            { h.current_state with current_state := POKER_HAND_STATE_CHEATED } }) := by
        simp only [PokerHand.verify_unmasking, hfd, hrc, hfc']
      obtain ⟨u, hufind, humap⟩ : ∃ u, (auditTrail h).find?
          (fun t => !(tripleOk h.player_keys t)) = some u ∧ u.actor = c₀ := by
        rcases hcase : (auditTrail h).find?
            (fun t => !(tripleOk h.player_keys t)) with _ | u
        · rw [firstCheat, hcase] at hfc
          cases hfc
        · rw [firstCheat, hcase] at hfc
          refine ⟨u, rfl, ?_⟩
          simpa using hfc
      have humem := List.mem_of_find?_eq_some hufind
      have hufail : tripleOk h.player_keys u = false := by
        have := List.find?_some hufind
        simpa using this
      rw [hv]
      refine ⟨?_, ?_, ?_, fun c _ => rfl⟩
      · constructor
        · intro hcon
          simp at hcon
        · intro hall
          exfalso
          have := (htra u humem).mpr (hall u humem)
          rw [hufail] at this
          cases this
      · intro c
        simp
      · intro hcon
        simp at hcon

/-- Claim C1 witness: a two-player hand with an empty unmasking log and a
recorded shuffle history is reported fair and left untouched. -/
theorem C1_verify_unmasking_audit_witness :
    exHandB.verify_unmasking.2 = exHandB :=
  (C1_verify_unmasking_audit exHandB (fun _ => 1) (by decide) (by decide)).2.2.1 (by decide)

end HandClaims

end Crumble
